import Mathlib

/-!
Verification development for the perdata relational persistence engine
(metadata derivation, entry identity map, dirty tracking, and the
ownership-ordered commit engine).

The TypeScript sources are shallowly embedded: JavaScript objects become
arena indices (natural numbers), mutation becomes explicit state passing,
JavaScript Map objects become association lists, exceptions become Except,
and the asynchronous commit cascade is modelled as a fuel-indexed
interpreter producing a trace of SQL statements.
-/

namespace Perdata

/-! ## Association-list model of a JavaScript Map

JavaScript Map semantics: `get` returns the value of the first (unique)
matching key, `set` overwrites in place if the key exists and appends
otherwise, `delete` removes the key's pair. -/

namespace JsMap

def get [DecidableEq K] : List (K × V) → K → Option V
  | [], _ => none
  | p :: l, k => if p.1 = k then some p.2 else get l k

def setK [DecidableEq K] : List (K × V) → K → V → List (K × V)
  | [], k, v => [(k, v)]
  | p :: l, k, v => if p.1 = k then (k, v) :: l else p :: setK l k v

def del [DecidableEq K] : List (K × V) → K → List (K × V)
  | [], _ => []
  | p :: l, k => if p.1 = k then del l k else p :: del l k

def has [DecidableEq K] (l : List (K × V)) (k : K) : Bool :=
  (get l k).isSome

end JsMap

/-! ## BiMap (src/packages/perdata-orm/src/util/map.ts)

Bidirectional map with a forward key→value map and a reverse value→key
map; `setByKey`/`setByValue` first delete any existing binding of both
the key and the value. -/

structure BiMap (K V : Type) where
  kvMap : List (K × V)
  vkMap : List (V × K)
deriving DecidableEq, Repr

namespace BiMap

variable [DecidableEq K] [DecidableEq V]

def empty : BiMap K V := ⟨[], []⟩

def hasByKey (m : BiMap K V) (k : K) : Bool := JsMap.has m.kvMap k

def getByKey (m : BiMap K V) (k : K) : Option V := JsMap.get m.kvMap k

def hasByValue (m : BiMap K V) (v : V) : Bool := JsMap.has m.vkMap v

def getByValue (m : BiMap K V) (v : V) : Option K := JsMap.get m.vkMap v

def deleteByKey (m : BiMap K V) (k : K) : BiMap K V :=
  match JsMap.get m.kvMap k with
  | some v => ⟨JsMap.del m.kvMap k, JsMap.del m.vkMap v⟩
  | none => ⟨JsMap.del m.kvMap k, m.vkMap⟩

def deleteByValue (m : BiMap K V) (v : V) : BiMap K V :=
  match JsMap.get m.vkMap v with
  | some k => ⟨JsMap.del m.kvMap k, JsMap.del m.vkMap v⟩
  | none => ⟨m.kvMap, JsMap.del m.vkMap v⟩

def setByKey (m : BiMap K V) (k : K) (v : V) : BiMap K V :=
  ⟨JsMap.setK ((m.deleteByKey k).deleteByValue v).kvMap k v,
   JsMap.setK ((m.deleteByKey k).deleteByValue v).vkMap v k⟩

def setByValue (m : BiMap K V) (v : V) (k : K) : BiMap K V :=
  ⟨JsMap.setK ((m.deleteByValue v).deleteByKey k).kvMap k v,
   JsMap.setK ((m.deleteByValue v).deleteByKey k).vkMap v k⟩

def clear (_ : BiMap K V) : BiMap K V := ⟨[], []⟩

/-- The forward and reverse maps are exact inverses. -/
def Inv (m : BiMap K V) : Prop :=
  ∀ k v, getByKey m k = some v ↔ getByValue m v = some k

end BiMap

/-- One operation on a `BiMap`, for stating properties of arbitrary
operation sequences. -/
inductive BMOp (K V : Type) where
  | setByKey (k : K) (v : V)
  | setByValue (v : V) (k : K)
  | deleteByKey (k : K)
  | deleteByValue (v : V)
  | clear
deriving Repr

def BMOp.apply [DecidableEq K] [DecidableEq V] (m : BiMap K V) : BMOp K V → BiMap K V
  | .setByKey k v => m.setByKey k v
  | .setByValue v k => m.setByValue v k
  | .deleteByKey k => m.deleteByKey k
  | .deleteByValue v => m.deleteByValue v
  | .clear => m.clear

def BMOp.applyAll [DecidableEq K] [DecidableEq V] (ops : List (BMOp K V)) : BiMap K V :=
  ops.foldl BMOp.apply BiMap.empty

/-! ## Operational model of the entry registry (src/unnamed/part_008)

Entries are arena indices; the per-table id↔entry `BiMap` of
`EntryRegistry.mapId` is an association list from table index to `BiMap`.
Identifier keys are scalar strings (identifier columns in perdata are
scalar value columns; a multi-valued or relation-valued id property reads
as an unset key in this embedding). -/

abbrev Val := String

inductive Owner where
  | source
  | foreign
deriving DecidableEq, Repr

/-- Base (scalar or collection-of-scalar) column metadata, as consumed by
the entry/property model: name plus the id/generated/collection flags of
`ColumnMetadata`. -/
structure BCol where
  name : String
  isId : Bool := false
  generated : Bool := false
  collection : Bool := false
deriving DecidableEq, Repr

/-- Relation column metadata as consumed by the entry/property model:
`owner`, the two join-column names (`sourceColumn` on this table,
`foreignColumn` on the foreign entry) and the foreign table index. -/
structure RelCol where
  name : String
  isId : Bool := false
  collection : Bool := false
  owner : Owner
  sourceColumn : String
  foreignColumn : String
  foreignTable : Nat
deriving DecidableEq, Repr

structure Table where
  name : String
  baseColumns : List BCol
  relationColumns : List RelCol
deriving DecidableEq, Repr

abbrev Env := List Table

def tableOf (env : Env) (t : Nat) : Table := env.getD t ⟨"", [], []⟩

/-- `TableMetadata.id`: the first base column flagged id (the metadata
getter throws when absent). -/
def tableIdCol (env : Env) (t : Nat) : Option BCol :=
  (tableOf env t).baseColumns.find? (fun c => c.isId)

def tableIdName (env : Env) (t : Nat) : Option String :=
  (tableIdCol env t).map (fun c => c.name)

/-- Raw wire values (src/packages/perdata-orm/src/util/raw.ts): a scalar
string, undefined, an array, or an object of named fields. -/
inductive Raw where
  | undef
  | str (s : String)
  | arr (vs : List Raw)
  | obj (fields : List (String × Raw))

def Raw.asSingleValue : Raw → Option Val
  | .str s => some s
  | _ => none

def Raw.asMultiValue : Raw → Option (List (Option Val))
  | .arr vs => some (vs.map Raw.asSingleValue)
  | _ => none

def Raw.asSingleObject : Raw → Option (List (String × Raw))
  | .obj fields => some fields
  | _ => none

def Raw.asMultiObject : Raw → Option (List Raw)
  | .arr vs => some vs
  | _ => none

/-- Value-property data: `EntryPropertySingleValue.data` or
`EntryPropertyMultiValue.data`. -/
inductive VData where
  | single (v : Option Val)
  | multi (v : Option (List (Option Val)))
deriving DecidableEq, Repr

/-- Relation-property data: the referenced entry (or list of entries). -/
inductive RD where
  | singleR (e : Option Nat)
  | multiR (es : Option (List (Option Nat)))
deriving DecidableEq, Repr

structure BProp where
  col : BCol
  data : VData
  dirty : Bool
deriving DecidableEq, Repr

structure RProp where
  col : RelCol
  data : RD
  dirty : Bool
deriving DecidableEq, Repr

structure Entry where
  table : Nat
  base : List BProp
  rels : List RProp
  initialized : Bool
  removed : Bool
deriving DecidableEq, Repr

instance : Inhabited BCol := ⟨⟨"", false, false, false⟩⟩

instance : Inhabited BProp := ⟨⟨⟨"", false, false, false⟩, .single none, false⟩⟩

instance : Inhabited RProp :=
  ⟨⟨⟨"", false, false, .source, "", "", 0⟩, .singleR none, false⟩⟩

instance : Inhabited Entry := ⟨⟨0, [], [], false, false⟩⟩

def BProp.withSingle (p : BProp) (nv : Option Val) (dz : Bool) : BProp :=
  { p with data := .single nv, dirty := dz }

def BProp.withMulti (p : BProp) (nv : Option (List (Option Val))) (dz : Bool) : BProp :=
  { p with data := .multi nv, dirty := dz }

def setBaseProp (i : Nat) (p1 : BProp) (en : Entry) : Entry :=
  { en with base := en.base.set i p1 }

def RProp.markDirty (p : RProp) : RProp := { p with dirty := true }

def RProp.setData (p : RProp) (d : RD) : RProp := { p with data := d }

def RProp.setMulti (p : RProp) (es : Option (List (Option Nat))) (extra : Bool) : RProp :=
  { p with data := .multiR es, dirty := p.dirty || extra }

/-- First index satisfying a predicate. -/
def idxOf? (p : α → Bool) : List α → Option Nat
  | [] => none
  | a :: l => if p a then some 0 else (idxOf? p l).map (fun i => i + 1)

inductive PropRef where
  | base (i : Nat)
  | rel (i : Nat)
deriving DecidableEq, Repr

/-- `Entry.property(name)`: first matching property, base properties
before relation properties (part_008:116-123). -/
def Entry.findProp (e : Entry) (nm : String) : Option PropRef :=
  match idxOf? (fun p => decide (p.col.name = nm)) e.base with
  | some i => some (.base i)
  | none => (idxOf? (fun p => decide (p.col.name = nm)) e.rels).map .rel

/-- `Entry.id`: the first property whose column is flagged id
(part_008:109-113). -/
def Entry.idRef (e : Entry) : Option PropRef :=
  match idxOf? (fun p => p.col.isId) e.base with
  | some i => some (.base i)
  | none => (idxOf? (fun p => p.col.isId) e.rels).map .rel

def Entry.idValue (e : Entry) : Option Val :=
  match e.idRef with
  | some (.base i) =>
    match (e.base.getD i default).data with
    | .single v => v
    | .multi _ => none
  | _ => none

def Entry.idPropName (e : Entry) : Option String :=
  match e.idRef with
  | some (.base i) => some ((e.base.getD i default).col.name)
  | some (.rel i) => some ((e.rels.getD i default).col.name)
  | none => none

def Entry.propNames (e : Entry) : List String :=
  e.base.map (fun p => p.col.name) ++ e.rels.map (fun p => p.col.name)

structure Reg where
  arena : List Entry
  mapId : List (Nat × BiMap Val Nat)
deriving DecidableEq, Repr

def Reg.empty : Reg := ⟨[], []⟩

def mapIdOf (r : Reg) (t : Nat) : BiMap Val Nat :=
  (JsMap.get r.mapId t).getD BiMap.empty

def setMapId (r : Reg) (t : Nat) (m : BiMap Val Nat) : Reg :=
  { r with mapId := JsMap.setK r.mapId t m }

def withEntry (r : Reg) (e : Nat) (f : Entry → Entry) : Reg :=
  match r.arena.get? e with
  | some ent => { r with arena := r.arena.set e (f ent) }
  | none => r

/-- `EntryRegistry.findAll(table)` (part_008:34-36): entries of a table in
creation order. -/
def findAll (r : Reg) (t : Nat) : List Nat :=
  (List.range r.arena.length).filter (fun i =>
    match r.arena.get? i with
    | some e => decide (e.table = t)
    | none => false)

inductive Err where
  | fuelOut
  | notFromRegistry
  | registerConflict
  | noIdProp
  | noIdColumn
  | mustSpecifyId
deriving DecidableEq, Repr

/-- `EntryRegistry.registerId(entry)` (part_008:63-78): bind the entry's
current id value in the per-table BiMap, rejecting an id already bound to
a different entry; an unset id unbinds the entry. -/
def registerId (r : Reg) (eIdx : Nat) : Except Err Reg :=
  match r.arena.get? eIdx with
  | none => .error .notFromRegistry
  | some e =>
    match e.idValue with
    | some k =>
      match (mapIdOf r e.table).getByKey k with
      | some old =>
        if old ≠ eIdx then .error .registerConflict
        else .ok (setMapId r e.table ((mapIdOf r e.table).setByKey k eIdx))
      | none => .ok (setMapId r e.table ((mapIdOf r e.table).setByKey k eIdx))
    | none => .ok (setMapId r e.table ((mapIdOf r e.table).deleteByValue eIdx))

/-- The `Entry` constructor (part_008:95-114): one property per column,
multi-valued when the column is a collection; error when no property's
column is flagged id. -/
def mkEntry (env : Env) (t : Nat) : Except Err Entry :=
  let tbl := tableOf env t
  let e : Entry :=
    { table := t
      base := tbl.baseColumns.map (fun c =>
        ⟨c, if c.collection then .multi none else .single none, false⟩)
      rels := tbl.relationColumns.map (fun c =>
        ⟨c, if c.collection then .multiR none else .singleR none, false⟩)
      initialized := false
      removed := false }
  match e.idRef with
  | some _ => .ok e
  | none => .error .noIdProp

/-- `EntryRegistry.create(table)` (part_008:28-32). -/
def createE (env : Env) (r : Reg) (t : Nat) : Except Err (Nat × Reg) :=
  match mkEntry env t with
  | .ok e => .ok (r.arena.length, { r with arena := r.arena ++ [e] })
  | .error er => .error er

/-- `EntryRegistry.findById(table, id)` (part_008:38-40): pure lookup in
the id map, undefined ids find nothing. -/
def findById (r : Reg) (t : Nat) (id : Option Val) : Option Nat :=
  match id with
  | some k => (mapIdOf r t).getByKey k
  | none => none

def entryPropNames (r : Reg) (e : Nat) : List String :=
  ((r.arena.get? e).map Entry.propNames).getD []

def relDataAt (r : Reg) (e j : Nat) : RD :=
  ((r.arena.get? e).map (fun en => (en.rels.getD j default).data)).getD (.singleR none)

/-- A property's current value as a `Raw`, for the join-column
synchronization reads (`sourceProperty?.value` / `foreignProperty?.value`);
absent property or entry reads as undefined. Relation-valued properties
read as undefined here: in perdata, join columns are scalar value
columns. -/
def propValueRaw (r : Reg) (e : Nat) (nm : String) : Raw :=
  match r.arena.get? e with
  | none => .undef
  | some ent =>
    match ent.findProp nm with
    | some (.base i) =>
      match (ent.base.getD i default).data with
      | .single (some s) => .str s
      | .single none => .undef
      | .multi (some xs) =>
        .arr (xs.map (fun x => match x with | some s => Raw.str s | none => Raw.undef))
      | .multi none => .undef
    | some (.rel _) => .undef
    | none => .undef

def foreignPropValueRaw (r : Reg) (d : Option Nat) (nm : String) : Raw :=
  match d with
  | some fe => propValueRaw r fe nm
  | none => .undef

def entryFindPropAt (r : Reg) (e : Nat) (nm : String) : Option PropRef :=
  (r.arena.get? e).bind (fun en => en.findProp nm)

/-- JavaScript `array[i]` on a `(string | undefined)[]`: element undefined
and out-of-bounds both read as undefined. -/
def jsIndexV (a : List (Option Val)) (i : Nat) : Option Val :=
  (a.get? i).join

/-- isMultiValueDirty (part_008:232-256). -/
def isMultiValueDirty (v1 v2 : Option (List (Option Val))) : Bool :=
  if decide (¬ v1.isNone = v2.isNone) then true
  else
    let a1 := v1.getD []
    let a2 := v2.getD []
    if decide (¬ a1.length = a2.length) then true
    else
      (List.range (max a1.length a2.length)).any (fun i =>
        decide (¬ jsIndexV a1 i = jsIndexV a2 i))

/-- JavaScript `array[i]?.id.value` over a list of entry references. -/
def entryIdAt (r : Reg) (a : List (Option Nat)) (i : Nat) : Option Val :=
  ((a.get? i).join).bind (fun e => (r.arena.get? e).bind Entry.idValue)

/-- isEntriesDirty (part_008:361-387): identity comparison by id values,
element-wise and length-sensitive. -/
def isEntriesDirty (r : Reg) (v1 v2 : Option (List (Option Nat))) : Bool :=
  if decide (¬ v1.isNone = v2.isNone) then true
  else
    let a1 := v1.getD []
    let a2 := v2.getD []
    if decide (¬ a1.length = a2.length) then true
    else
      (List.range (max a1.length a2.length)).any (fun i =>
        decide (¬ entryIdAt r a1 i = entryIdAt r a2 i))

/-! ## Mock store and statement trace -/

/-- A stored cell: a scalar (undefined standing for SQL NULL) or an array
of scalars. -/
inductive CVal where
  | v (x : Option Val)
  | arrv (xs : List (Option Val))
deriving DecidableEq, Repr

abbrev DBRow := List (String × CVal)

structure DBTable where
  rows : List DBRow
  counter : Nat
deriving DecidableEq, Repr

abbrev DB := List (Nat × DBTable)

def dbTable (db : DB) (t : Nat) : DBTable := (JsMap.get db t).getD ⟨[], 1⟩

def dbSet (db : DB) (t : Nat) (tb : DBTable) : DB := JsMap.setK db t tb

/-- Mock `insert ... returning <base columns>`: unprovided generated
columns receive the table's counter value, other unprovided columns NULL. -/
def dbInsert (env : Env) (db : DB) (t : Nat) (changes : List (String × CVal)) :
    DBRow × DB :=
  let tb := dbTable db t
  let row : DBRow := (tableOf env t).baseColumns.map (fun c =>
    (c.name,
      match JsMap.get changes c.name with
      | some cv => cv
      | none => if c.generated then .v (some (Nat.repr tb.counter)) else .v none))
  (row, dbSet db t ⟨tb.rows ++ [row], tb.counter + 1⟩)

def rowMatches (row : DBRow) (c : String) (x : CVal) : Bool :=
  decide (JsMap.get row c = some x)

def applyChanges (row : DBRow) (changes : List (String × CVal)) : DBRow :=
  changes.foldl (fun r p => JsMap.setK r p.1 p.2) row

/-- Mock `update ... where <c> = <x> returning <base columns>`. -/
def dbUpdate (db : DB) (t : Nat) (c : String) (x : CVal)
    (changes : List (String × CVal)) : List DBRow × DB :=
  let tb := dbTable db t
  let rows := tb.rows.map (fun row =>
    if rowMatches row c x then applyChanges row changes else row)
  (rows.filter (fun row => rowMatches row c x), dbSet db t ⟨rows, tb.counter⟩)

def removeFirst (p : DBRow → Bool) : List DBRow → List DBRow
  | [] => []
  | r :: rs => if p r then rs else r :: removeFirst p rs

/-- Mock `delete ... where <c> = <x>`, optionally with LIMIT 1. -/
def dbDelete (db : DB) (t : Nat) (c : String) (x : CVal) (limitOne : Bool) : DB :=
  let tb := dbTable db t
  let rows :=
    if limitOne then removeFirst (fun row => rowMatches row c x) tb.rows
    else tb.rows.filter (fun row => ! rowMatches row c x)
  dbSet db t ⟨rows, tb.counter⟩

/-- One SQL write statement, for the commit-order trace. -/
inductive Stmt where
  | insertS (t : Nat) (changes : List (String × CVal))
  | updateS (t : Nat) (idCol : String) (idVal : CVal) (changes : List (String × CVal))
  | deleteS (t : Nat) (whereCol : String) (x : CVal) (limitOne : Bool)
deriving DecidableEq, Repr

structure World where
  reg : Reg
  db : DB
  trace : List Stmt
deriving DecidableEq, Repr

def World.withReg (w : World) (r : Reg) : World := { w with reg := r }

/-- Dirty non-id non-generated base properties, as written by `flushBase`
(query.ts:883-885): `prop.value ?? null`. -/
def flushChanges (ent : Entry) : List (String × CVal) :=
  (ent.base.filter (fun p => p.dirty && !p.col.isId && !p.col.generated)).map
    (fun p => (p.col.name,
      match p.data with
      | .single x => CVal.v x
      | .multi (some xs) => CVal.arrv xs
      | .multi none => CVal.v none))

/-- `entry.dirty = false; entry.initialized = true` after a flushed write
(query.ts:907-908; the dirty setter clears every property,
part_008:145-147). -/
def cleanEntry (w : World) (e : Nat) : World :=
  { w with reg := withEntry w.reg e (fun en =>
      { en with
        base := en.base.map (fun p => { p with dirty := false })
        rels := en.rels.map (fun p => { p with dirty := false })
        initialized := true }) }

/-- createRaw (util/raw.ts) restricted to returned store rows: base
columns coerced by column kind. -/
def rawFieldsOfRow (env : Env) (t : Nat) (row : DBRow) : List (String × Raw) :=
  (tableOf env t).baseColumns.filterMap (fun c =>
    (JsMap.get row c.name).map (fun cv =>
      (c.name,
        match cv, c.collection with
        | .v (some s), false => Raw.str s
        | .v _, _ => Raw.undef
        | .arrv xs, true =>
          Raw.arr (xs.map (fun x => match x with | some s => Raw.str s | none => Raw.undef))
        | .arrv _, false => Raw.undef)))

inductive Res where
  | unit
  | ent (e : Option Nat)
  | ents (es : Option (List (Option Nat)))
deriving DecidableEq, Repr

def Res.toEnt : Res → Option Nat
  | .ent e => e
  | _ => none

def Res.toEnts : Res → Option (List (Option Nat))
  | .ents es => es
  | _ => none

/-- The interpreter's instruction set: property assignment, instantiate,
bulk value assignment, relation bind/unbind, and the flush phases. -/
inductive Job where
  | setJ (e : Nat) (nm : String) (v : Raw)
  | instJ (t : Nat) (v : Option (List (String × Raw)))
  | instListJ (t : Nat) (vs : Option (List Raw))
  | assignJ (e : Nat) (names : List String) (fields : List (String × Raw))
  | bindJ (e : Nat) (j : Nat)
  | unbindJ (e : Nat) (j : Nat)
  | bindMultiSrcJ (e : Nat) (src fc : String) (items : List (Option Nat))
  | bindMultiForeignJ (e : Nat) (src fc : String) (items : List (Option Nat))
  | unbindMultiForeignJ (e : Nat) (fc : String) (items : List (Option Nat))
  | bindListJ (e : Nat) (js : List Nat)
  | unbindListJ (e : Nat) (js : List Nat)
  | assignRowsJ (e : Nat) (rows : List DBRow)
  | flushBaseJ (e : Nat)
  | flushJ (e : Nat)
  | flushListJ (es : List Nat)

/-- Fuel-indexed interpreter over the registry, store and trace. Each
case is the shallow embedding of one method of part_008 / the flush
functions of query.ts:855-911; fuel decreases at every recursive call. -/
def run : Nat → Env → World → Job → Except Err (World × Res)
  | 0, _, _, _ => .error .fuelOut
  | n + 1, env, w, job =>
    match job with
    | .setJ e nm v =>
      match w.reg.arena.get? e with
      | none => .ok (w, .unit)
      | some ent =>
        match ent.findProp nm with
        | none => .ok (w, .unit)
        | some (.base i) =>
          let p := ent.base.getD i default
          match p.data with
          | .single old =>
            -- EntryPropertySingleValue.set (part_008:209-216)
            let newV := v.asSingleValue
            let r1 := withEntry w.reg e
              (setBaseProp i (p.withSingle newV (p.dirty || decide (¬ old = newV))))
            if p.col.isId then
              match registerId r1 e with
              | .ok r2 => .ok ({ w with reg := r2 }, .unit)
              | .error er => .error er
            else .ok ({ w with reg := r1 }, .unit)
          | .multi old =>
            -- EntryPropertyMultiValue.set (part_008:226-229)
            let newV := v.asMultiValue
            let r1 := withEntry w.reg e
              (setBaseProp i (p.withMulti newV (p.dirty || isMultiValueDirty old newV)))
            .ok ({ w with reg := r1 }, .unit)
        | some (.rel j) =>
          let p := ent.rels.getD j default
          match p.data with
          | .singleR _ =>
            -- EntryPropertySingleRelation.set (part_008:279-288)
            match run n env w (.instJ p.col.foreignTable v.asSingleObject) with
            | .error er => .error er
            | .ok (w1, res) =>
              let newData := res.toEnt
              if relDataAt w1.reg e j = RD.singleR newData then .ok (w1, .unit)
              else
                let f2 : Entry → Entry := fun en =>
                  let q := (en.rels.getD j default).markDirty
                  { en with rels := en.rels.set j q }
                let w2 := { w1 with reg := withEntry w1.reg e f2 }
                match run n env w2 (.unbindJ e j) with
                | .error er => .error er
                | .ok (w3, _) =>
                  let f4 : Entry → Entry := fun en =>
                    let q := (en.rels.getD j default).setData (.singleR newData)
                    { en with rels := en.rels.set j q }
                  let w4 := { w3 with reg := withEntry w3.reg e f4 }
                  run n env w4 (.bindJ e j)
          | .multiR _ =>
            -- EntryPropertyMultiRelation.set (part_008:324-332)
            match run n env w (.unbindJ e j) with
            | .error er => .error er
            | .ok (w1, _) =>
              match run n env w1 (.instListJ p.col.foreignTable v.asMultiObject) with
              | .error er => .error er
              | .ok (w2, res2) =>
                let es := res2.toEnts
                let curD :=
                  match relDataAt w2.reg e j with
                  | .multiR x => x
                  | .singleR _ => none
                let f3 : Entry → Entry := fun en =>
                  let q := (en.rels.getD j default).setMulti es (isEntriesDirty w2.reg curD es)
                  { en with rels := en.rels.set j q }
                let w3 := { w2 with reg := withEntry w2.reg e f3 }
                run n env w3 (.bindJ e j)
    | .instJ t v =>
      -- EntryRegistry.instantiate (part_008:42-61)
      match v with
      | none => .ok (w, .ent none)
      | some fields =>
        match tableIdName env t with
        | none => .error .noIdColumn
        | some idn =>
          let k := (JsMap.get fields idn).bind Raw.asSingleValue
          match findById w.reg t k with
          | some e =>
            match run n env w (.assignJ e (entryPropNames w.reg e) fields) with
            | .error er => .error er
            | .ok (w1, _) => .ok (w1, .ent (some e))
          | none =>
            match createE env w.reg t with
            | .error er => .error er
            | .ok (e, r1) =>
              match run n env { w with reg := r1 }
                  (.assignJ e (entryPropNames r1 e) fields) with
              | .error er => .error er
              | .ok (w1, _) => .ok (w1, .ent (some e))
    | .instListJ t vs =>
      match vs with
      | none => .ok (w, .ents none)
      | some [] => .ok (w, .ents (some []))
      | some (item :: rest) =>
        match run n env w (.instJ t item.asSingleObject) with
        | .error er => .error er
        | .ok (w1, res1) =>
          match run n env w1 (.instListJ t (some rest)) with
          | .error er => .error er
          | .ok (w2, res2) =>
            .ok (w2, .ents (some (res1.toEnt :: (res2.toEnts.getD []))))
    | .assignJ e names fields =>
      -- the Entry.value setter (part_008:156-164)
      match names with
      | [] => .ok (w, .unit)
      | nm :: rest =>
        match JsMap.get fields nm with
        | some fv =>
          match run n env w (.setJ e nm fv) with
          | .error er => .error er
          | .ok (w1, _) => run n env w1 (.assignJ e rest fields)
        | none => run n env w (.assignJ e rest fields)
    | .bindJ e j =>
      match w.reg.arena.get? e with
      | none => .ok (w, .unit)
      | some ent =>
        let p := ent.rels.getD j default
        match p.data with
        | .singleR d =>
          -- EntryPropertySingleRelation.bind (part_008:290-301)
          match p.col.owner with
          | .source =>
            if (ent.findProp p.col.sourceColumn).isSome then
              run n env w (.setJ e p.col.sourceColumn
                (foreignPropValueRaw w.reg d p.col.foreignColumn))
            else .ok (w, .unit)
          | .foreign =>
            match d with
            | some fe =>
              if (entryFindPropAt w.reg fe p.col.foreignColumn).isSome then
                run n env w (.setJ fe p.col.foreignColumn
                  (propValueRaw w.reg e p.col.sourceColumn))
              else .ok (w, .unit)
            | none => .ok (w, .unit)
        | .multiR d =>
          -- EntryPropertyMultiRelation.bind (part_008:334-346)
          match p.col.owner with
          | .source =>
            if (ent.findProp p.col.sourceColumn).isSome then
              run n env w (.bindMultiSrcJ e p.col.sourceColumn
                p.col.foreignColumn (d.getD []))
            else .ok (w, .unit)
          | .foreign =>
            run n env w (.bindMultiForeignJ e p.col.sourceColumn
              p.col.foreignColumn (d.getD []))
    | .unbindJ e j =>
      match w.reg.arena.get? e with
      | none => .ok (w, .unit)
      | some ent =>
        let p := ent.rels.getD j default
        match p.data with
        | .singleR d =>
          -- EntryPropertySingleRelation.unbind (part_008:303-314)
          match p.col.owner with
          | .source =>
            if (ent.findProp p.col.sourceColumn).isSome then
              run n env w (.setJ e p.col.sourceColumn .undef)
            else .ok (w, .unit)
          | .foreign =>
            match d with
            | some fe =>
              if (entryFindPropAt w.reg fe p.col.foreignColumn).isSome then
                run n env w (.setJ fe p.col.foreignColumn .undef)
              else .ok (w, .unit)
            | none => .ok (w, .unit)
        | .multiR d =>
          -- EntryPropertyMultiRelation.unbind (part_008:348-358)
          match p.col.owner with
          | .source =>
            if (ent.findProp p.col.sourceColumn).isSome then
              run n env w (.setJ e p.col.sourceColumn .undef)
            else .ok (w, .unit)
          | .foreign =>
            run n env w (.unbindMultiForeignJ e p.col.foreignColumn (d.getD []))
    | .bindMultiSrcJ e src fc items =>
      match items with
      | [] => .ok (w, .unit)
      | item :: rest =>
        match run n env w (.setJ e src (foreignPropValueRaw w.reg item fc)) with
        | .error er => .error er
        | .ok (w1, _) => run n env w1 (.bindMultiSrcJ e src fc rest)
    | .bindMultiForeignJ e src fc items =>
      match items with
      | [] => .ok (w, .unit)
      | item :: rest =>
        match item with
        | some fe =>
          if (entryFindPropAt w.reg fe fc).isSome then
            match run n env w (.setJ fe fc (propValueRaw w.reg e src)) with
            | .error er => .error er
            | .ok (w1, _) => run n env w1 (.bindMultiForeignJ e src fc rest)
          else run n env w (.bindMultiForeignJ e src fc rest)
        | none => run n env w (.bindMultiForeignJ e src fc rest)
    | .unbindMultiForeignJ e fc items =>
      match items with
      | [] => .ok (w, .unit)
      | item :: rest =>
        match item with
        | some fe =>
          if (entryFindPropAt w.reg fe fc).isSome then
            match run n env w (.setJ fe fc .undef) with
            | .error er => .error er
            | .ok (w1, _) => run n env w1 (.unbindMultiForeignJ e fc rest)
          else run n env w (.unbindMultiForeignJ e fc rest)
        | none => run n env w (.unbindMultiForeignJ e fc rest)
    | .bindListJ e js =>
      -- Entry.bind (part_008:166-168)
      match js with
      | [] => .ok (w, .unit)
      | j :: rest =>
        match run n env w (.bindJ e j) with
        | .error er => .error er
        | .ok (w1, _) => run n env w1 (.bindListJ e rest)
    | .unbindListJ e js =>
      -- Entry.unbind (part_008:170-172)
      match js with
      | [] => .ok (w, .unit)
      | j :: rest =>
        match run n env w (.unbindJ e j) with
        | .error er => .error er
        | .ok (w1, _) => run n env w1 (.unbindListJ e rest)
    | .assignRowsJ e rows =>
      -- rows.map(createRaw).forEach(raw => entry.value = raw) (query.ts:903-906)
      match rows with
      | [] => .ok (w, .unit)
      | row :: rest =>
        match (w.reg.arena.get? e).map Entry.table with
        | none => .ok (w, .unit)
        | some t =>
          match run n env w (.assignJ e (entryPropNames w.reg e)
              (rawFieldsOfRow env t row)) with
          | .error er => .error er
          | .ok (w1, _) => run n env w1 (.assignRowsJ e rest)
    | .flushBaseJ e =>
      -- flushBase (query.ts:878-911)
      match w.reg.arena.get? e with
      | none => .ok (w, .unit)
      | some ent =>
        let changes := flushChanges ent
        if changes.isEmpty then .ok (w, .unit)
        else
          match ent.idValue with
          | some k =>
            match tableIdName env ent.table with
            | none => .error .noIdColumn
            | some idn =>
              let res := dbUpdate w.db ent.table idn (.v (some k)) changes
              let w1 : World :=
                { w with db := res.2,
                         trace := w.trace ++
                           [.updateS ent.table idn (.v (some k)) changes] }
              match run n env w1 (.assignRowsJ e res.1) with
              | .error er => .error er
              | .ok (w2, _) => .ok (cleanEntry w2 e, .unit)
          | none =>
            let res := dbInsert env w.db ent.table changes
            let w1 : World :=
              { w with db := res.2,
                       trace := w.trace ++ [.insertS ent.table changes] }
            match run n env w1 (.assignRowsJ e [res.1]) with
            | .error er => .error er
            | .ok (w2, _) => .ok (cleanEntry w2 e, .unit)
    | .flushJ e =>
      -- flush (query.ts:855-876): flushBase, bind, flush every entry of
      -- every relation table, bind again, flushBase again
      match w.reg.arena.get? e with
      | none => .ok (w, .unit)
      | some ent =>
        match run n env w (.flushBaseJ e) with
        | .error er => .error er
        | .ok (w1, _) =>
          match run n env w1 (.bindListJ e (List.range ent.rels.length)) with
          | .error er => .error er
          | .ok (w2, _) =>
            let fes := ((tableOf env ent.table).relationColumns.map
              (fun c => findAll w2.reg c.foreignTable)).flatten
            match run n env w2 (.flushListJ fes) with
            | .error er => .error er
            | .ok (w3, _) =>
              match run n env w3 (.bindListJ e (List.range ent.rels.length)) with
              | .error er => .error er
              | .ok (w4, _) => run n env w4 (.flushBaseJ e)
    | .flushListJ es =>
      match es with
      | [] => .ok (w, .unit)
      | f :: rest =>
        match run n env w (.flushJ f) with
        | .error er => .error er
        | .ok (w1, _) => run n env w1 (.flushListJ rest)

def runW (n : Nat) (env : Env) (w : World) (j : Job) : Except Err World :=
  (run n env w j).map (fun p => p.1)

/-- QueryInsert.run (query.ts:826-833, textually identical in
part_003:409-416): create an entry, assign the input value, clear the
primary-key value, flush. -/
def insertRun (n : Nat) (env : Env) (w : World) (t : Nat)
    (fields : List (String × Raw)) : Except Err World :=
  match createE env w.reg t with
  | .error er => .error er
  | .ok (e, r1) =>
    match runW n env { w with reg := r1 }
        (.assignJ e (entryPropNames r1 e) fields) with
    | .error er => .error er
    | .ok w1 =>
      match (w1.reg.arena.get? e).bind Entry.idPropName with
      | none => .error .noIdProp
      | some idn =>
        match runW n env w1 (.setJ e idn .undef) with
        | .error er => .error er
        | .ok w2 => runW n env w2 (.flushJ e)

/-- QuerySave.run from the standalone query engine
(src/packages/perdata-orm/src/query.ts:389-409): throw when the input has
no primary-key field; otherwise update by primary key the provided non-id
base columns. The trailing re-find by returned ids is read-only and is
not part of the write trace. -/
def saveChangesV1 (env : Env) (t : Nat) (value : List (String × Option Val)) :
    List (String × CVal) :=
  (((tableOf env t).baseColumns.filter (fun c => ! c.isId)).filter
    (fun c => JsMap.has value c.name)).map
    (fun c => (c.name, CVal.v ((JsMap.get value c.name).join)))

def saveRunV1 (env : Env) (w : World) (t : Nat)
    (value : List (String × Option Val)) : Except Err World :=
  match tableIdName env t with
  | none => .error .noIdColumn
  | some idn =>
    if JsMap.has value idn then
      let id := (JsMap.get value idn).join
      let changes := saveChangesV1 env t value
      let res := dbUpdate w.db t idn (.v id) changes
      .ok { w with db := res.2,
                   trace := w.trace ++ [.updateS t idn (.v id) changes] }
    else .error .mustSpecifyId

/-- The update-key set computed by QuerySave.run (query.ts:395-398): the
provided base columns that are not the id column. -/
def saveKeysV1 (env : Env) (t : Nat) (value : List (String × Option Val)) :
    List String :=
  (((tableOf env t).baseColumns.filter (fun c => ! c.isId)).filter
    (fun c => JsMap.has value c.name)).map (fun c => c.name)

def relCountOf (r : Reg) (e : Nat) : Nat :=
  ((r.arena.get? e).map (fun en => en.rels.length)).getD 0

def singlePropValue (r : Reg) (e : Nat) (nm : String) : Option Val :=
  (propValueRaw r e nm).asSingleValue

def emitDelete (w : World) (t : Nat) (c : String) (k : Val) (limitOne : Bool) :
    World :=
  { w with db := dbDelete w.db t c (.v (some k)) limitOne,
           trace := w.trace ++ [.deleteS t c (.v (some k)) limitOne] }

def unlinkAll : Nat → Env → World → List Nat → Except Err World
  | _, _, w, [] => .ok w
  | n, env, w, e :: rest =>
    match runW n env w (.unbindListJ e (List.range (relCountOf w.reg e))) with
    | .error er => .error er
    | .ok w1 => unlinkAll n env w1 rest

/-- The entries of a table whose removal flag is set. -/
def markedOf (r : Reg) (t : Nat) : List Nat :=
  (findAll r t).filter (fun i => (r.arena.getD i default).removed)

/-- The (table, column, value) delete targets addressed through the
relation columns of the given ownership, one per marked entry whose join
value is set. -/
def relTargets (env : Env) (r : Reg) (t : Nat) (ow : Owner) :
    List (Nat × String × Val) :=
  (((tableOf env t).relationColumns.filter
      (fun c => decide (c.owner = ow))).map (fun c =>
    (markedOf r t).filterMap (fun e =>
      (singlePropValue r e c.sourceColumn).map
        (fun v => (c.foreignTable, c.foreignColumn, v))))).flatten

/-- The primary-key values of the marked entries themselves. -/
def selfIds (r : Reg) (t : Nat) : List Val :=
  (markedOf r t).filterMap (fun e => (r.arena.get? e).bind Entry.idValue)

/-- Modelled from the spec: the removal cascade of §4.4 step 3. The
sources under src/ contain only the `remove` mark flag on `Entry`
(src/unnamed/part_008:133-139); the delete phases themselves
(`QueryRemove`) are not present under src/, so they are modelled here
from the spec's words: relation properties of entries marked for removal
are unlinked before any delete statement runs, then dependents
(`owner = foreign`) are deleted, then the marked entries themselves by
primary key with LIMIT 1 semantics, then dependencies (`owner = source`).
Join values addressing the dependent/dependency rows are captured before
unlinking clears them. -/
def commitRemove (n : Nat) (env : Env) (w : World) (t : Nat) : Except Err World :=
  match tableIdName env t with
  | none => .error .noIdColumn
  | some idn =>
    match unlinkAll n env w (markedOf w.reg t) with
    | .error er => .error er
    | .ok w1 =>
      let w2 := (relTargets env w.reg t .foreign).foldl
        (fun wa tc => emitDelete wa tc.1 tc.2.1 tc.2.2 false) w1
      let w3 := (selfIds w.reg t).foldl (fun wa k => emitDelete wa t idn k true) w2
      let w4 := (relTargets env w.reg t .source).foldl
        (fun wa tc => emitDelete wa tc.1 tc.2.1 tc.2.2 false) w3
      .ok w4

/-! ## The list-scan registry (src/packages/perdata-orm/src/entry.ts)

The earlier registry snapshot: `findById` linearly scans the table's
entry list by id value and creates (and registers) a fresh entry on first
reference (entry.ts:20-30). Only the id property matters for identity, so
an entry is its id-property data; the property setter's pertype decode is
the identity on stored scalars. -/

structure RegA where
  ids : List (Option Val)
  list : List Nat
deriving DecidableEq, Repr

def RegA.idOf (r : RegA) (i : Nat) : Option Val := (r.ids.get? i).join

/-- entry.ts:20-30: scan, else create (first push), set the id, push
again. -/
def findByIdA (r : RegA) (id : Option Val) : Nat × RegA :=
  match r.list.find? (fun i => decide (r.idOf i = id)) with
  | some i => (i, r)
  | none =>
    let i := r.ids.length
    let r1 : RegA := ⟨r.ids ++ [none], r.list ++ [i]⟩
    let r2 : RegA := ⟨r1.ids.set i id, r1.list⟩
    (i, ⟨r2.ids, r2.list ++ [i]⟩)

/-! ## Metadata derivation (src/packages/perdata-orm/src/metadata.ts)

pertype schemas are embedded as finite trees: a scalar leaf, an object of
named properties, or an optional/nullable/array wrapper, each node
carrying a map of named attributes. `SchemaReader.read` looks an
attribute up on the node itself, descending through wrappers with the
outermost occurrence winning; `SchemaReader.traverse`-based detection of
nullability checks the outermost node only, collection detection descends
through wrappers (part_006, metadata.ts:209-281). -/

inductive SAttr where
  | s (v : String)
  | b (v : Bool)
deriving DecidableEq, Repr

inductive PSchema where
  | leaf (attrs : List (String × SAttr))
  | objS (attrs : List (String × SAttr)) (props : List (String × PSchema))
  | optS (attrs : List (String × SAttr)) (inner : PSchema)
  | nullS (attrs : List (String × SAttr)) (inner : PSchema)
  | arrS (attrs : List (String × SAttr)) (inner : PSchema)

def PSchema.attrs : PSchema → List (String × SAttr)
  | .leaf a => a
  | .objS a _ => a
  | .optS a _ => a
  | .nullS a _ => a
  | .arrS a _ => a

/-- Attribute lookup through wrapper layers, outermost first
(SchemaReader.read via traverse: `schema.get(name) ?? innerValue`). -/
def PSchema.readAttr : PSchema → String → Option SAttr
  | .optS a inner, nm => (JsMap.get a nm).or (inner.readAttr nm)
  | .nullS a inner, nm => (JsMap.get a nm).or (inner.readAttr nm)
  | .arrS a inner, nm => (JsMap.get a nm).or (inner.readAttr nm)
  | .leaf a, nm => JsMap.get a nm
  | .objS a _, nm => JsMap.get a nm

/-- `.set(name, value)`: attribute update on the outermost node. -/
def PSchema.setAttr : PSchema → String → SAttr → PSchema
  | .leaf a, nm, v => .leaf (JsMap.setK a nm v)
  | .objS a props, nm, v => .objS (JsMap.setK a nm v) props
  | .optS a inner, nm, v => .optS (JsMap.setK a nm v) inner
  | .nullS a inner, nm, v => .nullS (JsMap.setK a nm v) inner
  | .arrS a inner, nm, v => .arrS (JsMap.setK a nm v) inner

/-- `.optional()`: wrap in a fresh optional node. -/
def PSchema.optionalW (s : PSchema) : PSchema := .optS [] s

/-- The synthesized join column\'s schema (metadata.ts:170-176):
`targetColumn.schema.set('id', false).set('generated', false)`, wrapped
`.optional()` when the relation is nullable. -/
def joinColumnSchema (targetSchema : PSchema) (relNullable : Bool) : PSchema :=
  let s0 := (targetSchema.setAttr "id" (.b false)).setAttr "generated" (.b false)
  if relNullable then s0.optionalW else s0

inductive MErr where
  | fuelOut
  | missingEntityName
  | noIdColumn
  | badAttr
deriving DecidableEq, Repr

/-- `SchemaReader.read(schema, nm, string().optional())`: an attribute of
the wrong kind fails the `type.is` check and throws. -/
def readStrAttr (s : PSchema) (nm : String) : Except MErr (Option String) :=
  match s.readAttr nm with
  | some (.s v) => .ok (some v)
  | some (.b _) => .error .badAttr
  | none => .ok none

def readBoolAttr (s : PSchema) (nm : String) : Except MErr (Option Bool) :=
  match s.readAttr nm with
  | some (.b v) => .ok (some v)
  | some (.s _) => .error .badAttr
  | none => .ok none

/-- readEntity (metadata.ts:221-226): 'entity' ?? 'table'. -/
def readEntityE (s : PSchema) : Except MErr (Option String) :=
  match readStrAttr s "entity" with
  | .error e => .error e
  | .ok (some v) => .ok (some v)
  | .ok none => readStrAttr s "table"

/-- readId (metadata.ts:228-230). -/
def readIdE (s : PSchema) : Except MErr Bool :=
  match readBoolAttr s "id" with
  | .error e => .error e
  | .ok v => .ok (v.getD false)

/-- readGenerated (metadata.ts:232-239): 'generate' ?? 'gen' ??
'generated' ?? false. -/
def readGeneratedE (s : PSchema) : Except MErr Bool :=
  match readBoolAttr s "generate" with
  | .error e => .error e
  | .ok (some v) => .ok v
  | .ok none =>
    match readBoolAttr s "gen" with
    | .error e => .error e
    | .ok (some v) => .ok v
    | .ok none =>
      match readBoolAttr s "generated" with
      | .error e => .error e
      | .ok v => .ok (v.getD false)

/-- detectNullable (metadata.ts:241-249): the traversal function ignores
the inner value, so only the outermost node is consulted. -/
def detectNullableP : PSchema → Bool
  | .optS _ _ => true
  | .nullS _ _ => true
  | _ => false

/-- detectCollection (metadata.ts:251-258): any array wrapper in the
optional/nullable/array chain. -/
def detectCollectionP : PSchema → Bool
  | .arrS _ _ => true
  | .optS _ i => detectCollectionP i
  | .nullS _ i => detectCollectionP i
  | _ => false

/-- readProperties (metadata.ts:209-219). -/
def readPropertiesP : PSchema → List (String × PSchema)
  | .objS _ props => props
  | .optS _ i => readPropertiesP i
  | .nullS _ i => readPropertiesP i
  | .arrS _ i => readPropertiesP i
  | .leaf _ => []

/-- readJoinOwner (metadata.ts:260-268): 'owner' || 'joinOwner' ||
'join_owner' ?? 'source'; a value outside the source/foreign literal
union fails `type.is` and throws. -/
def readOwnerKey (s : PSchema) (nm : String) : Except MErr (Option Owner) :=
  match s.readAttr nm with
  | some (.s v) =>
    if v = "source" then .ok (some Owner.source)
    else if v = "foreign" then .ok (some Owner.foreign)
    else .error .badAttr
  | some (.b _) => .error .badAttr
  | none => .ok none

def readJoinOwnerE (s : PSchema) : Except MErr Owner :=
  match readOwnerKey s "owner" with
  | .error e => .error e
  | .ok (some v) => .ok v
  | .ok none =>
    match readOwnerKey s "joinOwner" with
    | .error e => .error e
    | .ok (some v) => .ok v
    | .ok none =>
      match readOwnerKey s "join_owner" with
      | .error e => .error e
      | .ok v => .ok (v.getD Owner.source)

/-- readJoinName (metadata.ts:270-276): 'joinName' || 'join_name' ||
'join'; chains with `||`, so an empty-string value falls through. -/
def readJoinKey (s : PSchema) (nm : String) : Except MErr (Option String) :=
  match readStrAttr s nm with
  | .error e => .error e
  | .ok (some v) => .ok (if v = "" then none else some v)
  | .ok none => .ok none

def readJoinNameE (s : PSchema) : Except MErr (Option String) :=
  match readJoinKey s "joinName" with
  | .error e => .error e
  | .ok (some v) => .ok (some v)
  | .ok none =>
    match readJoinKey s "join_name" with
    | .error e => .error e
    | .ok (some v) => .ok (some v)
    | .ok none => readJoinKey s "join"

inductive StrongWeak where
  | strong
  | weak
deriving DecidableEq, Repr

/-- readReference (metadata.ts:278-281): 'reference' ?? 'weak'. -/
def readReferenceE (s : PSchema) : Except MErr StrongWeak :=
  match s.readAttr "reference" with
  | some (.s v) =>
    if v = "strong" then .ok .strong
    else if v = "weak" then .ok .weak
    else .error .badAttr
  | some (.b _) => .error .badAttr
  | none => .ok .weak

/-- ColumnMetadata fields (metadata.ts:110-135): column identity is the
(owning table arena index, name) pair. -/
structure MCol where
  table : Nat
  name : String
  schema : PSchema
  declared : Bool
  id : Bool
  generated : Bool
  nullable : Bool
  collection : Bool

/-- RelationColumnMetadata fields (metadata.ts:137-196); the two join
ends are (table arena index, column name) references. -/
structure MRel where
  table : Nat
  name : String
  schema : PSchema
  declared : Bool
  id : Bool
  generated : Bool
  nullable : Bool
  collection : Bool
  owner : Owner
  sourceColumn : Nat × String
  foreignColumn : Nat × String
  reference : StrongWeak

/-- `RelationColumnMetadata.foreignTable` = `foreignColumn.table`. -/
def MRel.foreignTable (c : MRel) : Nat := c.foreignColumn.1

structure MTable where
  name : String
  baseColumns : List MCol
  relationColumns : List MRel

structure MReg where
  arena : List MTable
  cache : List (String × Nat)

def MReg.empty : MReg := ⟨[], []⟩

def mtableOf (r : MReg) (t : Nat) : MTable := r.arena.getD t ⟨"", [], []⟩

def mwith (r : MReg) (t : Nat) (f : MTable → MTable) : MReg :=
  { r with arena := r.arena.set t (f (mtableOf r t)) }

/-- The ColumnMetadata constructor (metadata.ts:120-134). -/
def mkMCol (tIdx : Nat) (nm : String) (s : PSchema) (declared : Bool) :
    Except MErr MCol :=
  match readIdE s with
  | .error e => .error e
  | .ok idf =>
    match readGeneratedE s with
    | .error e => .error e
    | .ok genf =>
      .ok ⟨tIdx, nm, s, declared, idf, genf, detectNullableP s, detectCollectionP s⟩

/-- `TableMetadata.id`: first base column flagged id; throws when
absent (metadata.ts:78-84). -/
def mtableIdCol (r : MReg) (t : Nat) : Option MCol :=
  (mtableOf r t).baseColumns.find? (fun c => c.id)

/-- `TableMetadata.column(name)` over base ++ relation columns
(metadata.ts:70-76), as an existence test for join-column reuse. -/
def mtableHasColumn (tb : MTable) (nm : String) : Bool :=
  tb.baseColumns.any (fun c => decide (c.name = nm)) ||
    tb.relationColumns.any (fun c => decide (c.name = nm))

/-- The RelationColumnMetadata constructor (metadata.ts:146-191) after
`registry.get(schema)` has produced the foreign table index `ftIdx`:
compute the owner, resolve the target id column, default the join-column
name to `<targetTableName>_<targetIdColumnName>`, reuse an existing
same-named column on the owning table or synthesize one (the target id
column's schema with the 'id' and 'generated' attributes overridden to
false, wrapped optional when the relation is nullable) and append it to
the owning table's base columns, then append the relation column. -/
def addRelColumn (r : MReg) (tIdx : Nat) (key : String) (fs : PSchema)
    (ftIdx : Nat) : Except MErr MReg :=
  match mkMCol tIdx key fs true with
  | .error e => .error e
  | .ok flags =>
    match (if flags.collection then Except.ok Owner.foreign else readJoinOwnerE fs : Except MErr Owner) with
    | .error e => .error e
    | .ok owner =>
      let targetIdx := if owner = Owner.source then ftIdx else tIdx
      match mtableIdCol r targetIdx with
      | none => .error .noIdColumn
      | some targetCol =>
        match readJoinNameE fs with
        | .error e => .error e
        | .ok jn =>
          let joinColumnName :=
            jn.getD ((mtableOf r targetIdx).name ++ "_" ++ targetCol.name)
          let ownerIdx := if owner = Owner.source then tIdx else ftIdx
          match
            (if mtableHasColumn (mtableOf r ownerIdx) joinColumnName then Except.ok r
             else
               match mkMCol ownerIdx joinColumnName
                   (joinColumnSchema targetCol.schema flags.nullable) false with
               | .error e => Except.error e
               | .ok newCol =>
                 Except.ok (mwith r ownerIdx (fun tb =>
                   { tb with baseColumns := tb.baseColumns ++ [newCol] })) :
              Except MErr MReg) with
          | .error e => .error e
          | .ok r1 =>
            match readReferenceE fs with
            | .error e => .error e
            | .ok ref =>
              let srcRef :=
                if owner = Owner.source then (ownerIdx, joinColumnName)
                else (targetIdx, targetCol.name)
              let fgnRef :=
                if owner = Owner.source then (targetIdx, targetCol.name)
                else (ownerIdx, joinColumnName)
              .ok (mwith r1 tIdx (fun tb =>
                { tb with relationColumns := tb.relationColumns ++
                    [⟨tIdx, key, fs, true, flags.id, flags.generated,
                      flags.nullable, flags.collection, owner, srcRef, fgnRef,
                      ref⟩] }))

inductive MJob where
  | get (s : PSchema)
  | build (tIdx : Nat) (fields : List (String × PSchema))

/-- Metadata derivation: `MetadataRegistry.get` (metadata.ts:23-39) plus
the TableMetadata constructor loop (metadata.ts:50-67). The cache entry
is written only after the table's construction completes, as in the
source. -/
def mrun : Nat → MReg → MJob → Except MErr (MReg × Option Nat)
  | 0, _, _ => .error .fuelOut
  | n + 1, r, .get s =>
    match readEntityE s with
    | .error e => .error e
    | .ok none => .error .missingEntityName
    | .ok (some name) =>
      match JsMap.get r.cache name with
      | some i => .ok (r, some i)
      | none =>
        let idx := r.arena.length
        let r1 : MReg := { r with arena := r.arena ++ [⟨name, [], []⟩] }
        match mrun n r1 (.build idx (readPropertiesP s)) with
        | .error e => .error e
        | .ok (r2, _) =>
          .ok ({ r2 with cache := JsMap.setK r2.cache name idx }, some idx)
  | n + 1, r, .build tIdx fields =>
    match fields with
    | [] => .ok (r, none)
    | (key, fs) :: rest =>
      match readEntityE fs with
      | .error e => .error e
      | .ok none =>
        match mkMCol tIdx key fs true with
        | .error e => .error e
        | .ok c =>
          let r1 := mwith r tIdx (fun tb =>
            { tb with baseColumns := tb.baseColumns ++ [c] })
          mrun n r1 (.build tIdx rest)
      | .ok (some _) =>
        match mrun n r (.get fs) with
        | .error e => .error e
        | .ok (r1, fti) =>
          match fti with
          | none => .error .missingEntityName
          | some ftIdx =>
            match addRelColumn r1 tIdx key fs ftIdx with
            | .error e => .error e
            | .ok r2 => mrun n r2 (.build tIdx rest)

def mget (n : Nat) (r : MReg) (s : PSchema) : Except MErr (Nat × MReg) :=
  match mrun n r (.get s) with
  | .error e => .error e
  | .ok (r1, some i) => .ok (i, r1)
  | .ok (_, none) => .error .missingEntityName

def basePropAt (r : Reg) (e i : Nat) : BProp :=
  ((r.arena.get? e).map (fun en => en.base.getD i default)).getD default

def relPropAt (r : Reg) (e j : Nat) : RProp :=
  ((r.arena.get? e).map (fun en => en.rels.getD j default)).getD default

/-! ## Registry invariant and trace helpers -/

/-- The identity-map invariant: every per-table id↔entry BiMap is an
exact bijection between bound ids and bound entries. -/
def RegInv (r : Reg) : Prop := ∀ t, BiMap.Inv (mapIdOf r t)

/-- Jobs that never issue SQL: every instruction except the flush phases,
which are the only cases of `run` that touch the store or the trace. -/
def Job.isPure : Job → Bool
  | .flushBaseJ _ => false
  | .flushJ _ => false
  | .flushListJ _ => false
  | _ => true

/-- Relation between the worlds before and after an interpreter step: the
statement trace only grows at the end, the identity-map invariant is
preserved, and a step of a pure job leaves the store and the trace
untouched. -/
def WorldStep (w w' : World) (pure : Bool) : Prop :=
  (∃ ts, w'.trace = w.trace ++ ts) ∧
  (RegInv w.reg → RegInv w'.reg) ∧
  (pure = true → w'.db = w.db ∧ w'.trace = w.trace)

def isInsertInto (t : Nat) : Stmt → Bool
  | .insertS t' _ => decide (t' = t)
  | _ => false

def isUpdateOf (t : Nat) (k : Val) : Stmt → Bool
  | .updateS t' _ x _ => decide (t' = t) && decide (x = CVal.v (some k))
  | _ => false

def firstInsertIdx (tr : List Stmt) (t : Nat) : Option Nat :=
  tr.findIdx? (isInsertInto t)

def isDeleteOn (ts : List Nat) : Stmt → Bool
  | .deleteS t _ _ _ => ts.contains t
  | _ => false

def isLimitedDeleteById (t : Nat) (idn : String) : Stmt → Bool
  | .deleteS t' c _ limitOne => decide (t' = t) && decide (c = idn) && limitOne
  | _ => false

/-! ## Concrete fixtures -/

def wEmpty : World := ⟨Reg.empty, [], []⟩

/-- Parent/child metadata for a one-to-one relation with owner = source
(query.test.ts, One-to-One Owner: Source): parent table 0 "p" with a
generated id, a key and the synthesized join column c_id; child table 1
"c" with a generated id and a key. -/
def envPC : Env :=
  [⟨"p", [⟨"id", true, true, false⟩, ⟨"key", false, false, false⟩,
          ⟨"c_id", false, false, false⟩],
        [⟨"relation", false, false, .source, "c_id", "id", 1⟩]⟩,
   ⟨"c", [⟨"id", true, true, false⟩, ⟨"key", false, false, false⟩], []⟩]

/-- An insert input with a nested new child. -/
def parentFields : List (String × Raw) :=
  [("key", .str "k1"), ("relation", .obj [("key", .str "ck")])]

/-- The registry/store state right before the flush inside
`insertRun 20 envPC wEmpty 0 parentFields` (create, assign, clear id). -/
def wBeforeFlush : World :=
  match createE envPC wEmpty.reg 0 with
  | .error _ => wEmpty
  | .ok (e, r1) =>
    match runW 20 envPC { wEmpty with reg := r1 }
        (.assignJ e (entryPropNames r1 e) parentFields) with
    | .error _ => wEmpty
    | .ok w1 =>
      match runW 20 envPC w1 (.setJ e "id" .undef) with
      | .error _ => wEmpty
      | .ok w2 => w2

/-- The pre-flush state started from distinct id counters (parent ids
from 1, child ids from 5), so the two generated ids are tellable apart. -/
def wCounters : World := ⟨Reg.empty, [(0, ⟨[], 1⟩), (1, ⟨[], 5⟩)], []⟩

def wBeforeFlushC : World :=
  match createE envPC wCounters.reg 0 with
  | .error _ => wCounters
  | .ok (e, r1) =>
    match runW 20 envPC { wCounters with reg := r1 }
        (.assignJ e (entryPropNames r1 e) parentFields) with
    | .error _ => wCounters
    | .ok w1 =>
      match runW 20 envPC w1 (.setJ e "id" .undef) with
      | .error _ => wCounters
      | .ok w2 => w2

/-- The state after flushing the parent entry from `wBeforeFlushC`. -/
def flushedC : World :=
  match run 20 envPC wBeforeFlushC (.flushJ 0) with
  | .ok (w, _) => w
  | .error _ => wCounters

/-- A single table "s" with a generated id and a key. -/
def envSimple : Env :=
  [⟨"s", [⟨"id", true, true, false⟩, ⟨"key", false, false, false⟩], []⟩]

/-- A store already holding the row with id "7". -/
def wExisting : World :=
  ⟨Reg.empty, [(0, ⟨[[("id", .v (some "7")), ("key", .v (some "old"))]], 8⟩)], []⟩

def insertCarryingId : List (String × Raw) :=
  [("id", .str "7"), ("key", .str "new")]

/-- A raw row of the simple table, loaded twice to observe idempotence. -/
def fields5 : List (String × Raw) := [("id", .str "5"), ("key", .str "k")]

/-- The world after instantiating `fields5` once from the empty scope. -/
def wInst : World :=
  match run 10 envSimple wEmpty (.instJ 0 (some fields5)) with
  | .ok (w, _) => w
  | .error _ => wEmpty

/-- Two in-memory entries of table 0 whose id property both read "5",
with the first one registered in the identity map. -/
def entFive : Entry :=
  ⟨0, [⟨⟨"id", true, true, false⟩, .single (some "5"), false⟩,
       ⟨⟨"key", false, false, false⟩, .single none, false⟩], [], false, false⟩

def regConflict : Reg := ⟨[entFive, entFive], [(0, ⟨[("5", 0)], [(0, "5")]⟩)]⟩

/-- A world holding one registered entry of the simple table, id "5". -/
def wFive : World := ⟨⟨[entFive], [(0, ⟨[("5", 0)], [(0, "5")]⟩)]⟩, [], []⟩

/-- Metadata for removal: table 0 "m" with one foreign-owned and one
source-owned relation; table 1 "d" holds the dependent rows (join column
m_id), table 2 "o" holds the dependency rows. -/
def envRem : Env :=
  [⟨"m", [⟨"id", true, true, false⟩, ⟨"o_id", false, false, false⟩],
        [⟨"dep", false, false, .foreign, "id", "m_id", 1⟩,
         ⟨"own", false, false, .source, "o_id", "id", 2⟩]⟩,
   ⟨"d", [⟨"id", true, true, false⟩, ⟨"m_id", false, false, false⟩], []⟩,
   ⟨"o", [⟨"id", true, true, false⟩], []⟩]

/-- A marked-for-removal entry of table "m" with id "1" and join value
"9", alongside the matching store rows. -/
def entMarked : Entry :=
  ⟨0, [⟨⟨"id", true, true, false⟩, .single (some "1"), false⟩,
       ⟨⟨"o_id", false, false, false⟩, .single (some "9"), false⟩],
      [⟨⟨"dep", false, false, .foreign, "id", "m_id", 1⟩, .singleR none, false⟩,
       ⟨⟨"own", false, false, .source, "o_id", "id", 2⟩, .singleR none, false⟩],
      true, true⟩

def wRem : World :=
  ⟨⟨[entMarked], [(0, ⟨[("1", 0)], [(0, "1")]⟩)]⟩,
   [(0, ⟨[[("id", .v (some "1")), ("o_id", .v (some "9"))]], 2⟩),
    (1, ⟨[[("id", .v (some "4")), ("m_id", .v (some "1"))]], 5⟩),
    (2, ⟨[[("id", .v (some "9"))]], 10⟩)],
   []⟩

/-- The world left behind by the removal cascade on `wRem`. -/
def remFinal : World :=
  match commitRemove 10 envRem wRem 0 with
  | .ok w => w
  | .error _ => wRem

/-- Table "t" with a non-generated id, a generated column g and a key. -/
def envGen : Env :=
  [⟨"t", [⟨"id", true, false, false⟩, ⟨"g", false, true, false⟩,
          ⟨"key", false, false, false⟩], []⟩]

def saveValGen : List (String × Option Val) := [("id", some "1"), ("g", some "9")]

def wGen : World :=
  ⟨Reg.empty,
   [(0, ⟨[[("id", .v (some "1")), ("g", .v (some "0")), ("key", .v (some "a"))]], 2⟩)],
   []⟩

/-- Entity "c" whose id column is declared `optional()` (as the generated
ids of the test schemas are) and generated through the 'gen' alias
attribute, referenced by entity "p" through a non-nullable relation
field. -/
def childIdSchema : PSchema := .optS [("id", .b true), ("gen", .b true)] (.leaf [])

def childSchema : PSchema :=
  .objS [("entity", .s "c")] [("id", childIdSchema)]

/-- The derived metadata of the child id column. -/
def childIdCol : MCol := ⟨1, "id", childIdSchema, true, true, true, true, false⟩

/-- The relation column flags of the "rel" field (the super constructor
part of RelationColumnMetadata). -/
def relFlags : MCol := ⟨0, "rel", childSchema, true, false, false, false, false⟩

/-- The registry state at the moment the relation column "rel" of "p" is
constructed: "p" holds its id column, "c" is fully derived and cached. -/
def mPreParent : MReg :=
  ⟨[⟨"p", [⟨0, "id", .leaf [("id", .b true)], true, true, false, false, false⟩], []⟩,
    ⟨"c", [childIdCol], []⟩],
   [("c", 1)]⟩

/-- The registry after that relation column is added. -/
def mPostParent : MReg :=
  match addRelColumn mPreParent 0 "rel" childSchema 1 with
  | .ok r => r
  | .error _ => MReg.empty

def parentSchema : PSchema :=
  .objS [("entity", .s "p")]
    [("id", .leaf [("id", .b true)]), ("rel", childSchema)]

/-- Mutually-referencing entity descriptions by name: "a" relates to "b",
which relates back to a structurally distinct description also named
"a". -/
def stubASchema : PSchema :=
  .objS [("entity", .s "a")] [("id", .leaf [("id", .b true)])]

def schemaB : PSchema :=
  .objS [("entity", .s "b")]
    [("id", .leaf [("id", .b true)]), ("a", stubASchema)]

def schemaA : PSchema :=
  .objS [("entity", .s "a")]
    [("id", .leaf [("id", .b true)]), ("b", schemaB)]

def noNameSchema : PSchema := .objS [] [("id", .leaf [("id", .b true)])]

/-- The registry produced by deriving the parent description. -/
def mgetParentReg : MReg :=
  match mrun 10 MReg.empty (.get parentSchema) with
  | .ok (r, _) => r
  | .error _ => MReg.empty

/-- A fresh entry of the simple table, with a clean unset key property. -/
def entSimpleFresh : Entry :=
  ⟨0, [⟨⟨"id", true, true, false⟩, .single none, false⟩,
       ⟨⟨"key", false, false, false⟩, .single none, false⟩], [], false, false⟩

def wSimpleFresh : World := ⟨⟨[entSimpleFresh], []⟩, [], []⟩

/-! ### JsMap lemmas -/

namespace JsMap

variable [DecidableEq K]

theorem get_nil {k : K} : get ([] : List (K × V)) k = none := rfl

theorem get_cons {p : K × V} {l : List (K × V)} {k : K} :
    get (p :: l) k = if p.1 = k then some p.2 else get l k := rfl

theorem get_del_self {l : List (K × V)} {k : K} : get (del l k) k = none := by
  induction l with
  | nil => rfl
  | cons p l ih =>
    rw [del]
    by_cases h : p.1 = k
    · rw [if_pos h]
      exact ih
    · rw [if_neg h, get_cons, if_neg h]
      exact ih

theorem get_del_ne {l : List (K × V)} {k k' : K} (h : k' ≠ k) :
    get (del l k) k' = get l k' := by
  induction l with
  | nil => rfl
  | cons p l ih =>
    rw [del]
    by_cases hp : p.1 = k
    · have hp' : ¬ p.1 = k' := by
        rw [hp]
        exact fun hh => h hh.symm
      rw [if_pos hp, get_cons, if_neg hp']
      exact ih
    · rw [if_neg hp, get_cons, get_cons, ih]

theorem get_setK_self {l : List (K × V)} {k : K} {v : V} :
    get (setK l k v) k = some v := by
  induction l with
  | nil =>
    rw [setK, get_cons, if_pos rfl]
  | cons p l ih =>
    rw [setK]
    by_cases hp : p.1 = k
    · rw [if_pos hp, get_cons, if_pos rfl]
    · rw [if_neg hp, get_cons, if_neg hp]
      exact ih

theorem get_setK_ne {l : List (K × V)} {k k' : K} {v : V} (h : k' ≠ k) :
    get (setK l k v) k' = get l k' := by
  have hk : ¬ (k = k') := fun hh => h hh.symm
  induction l with
  | nil =>
    rw [setK, get_cons, if_neg hk]
  | cons p l ih =>
    rw [setK]
    by_cases hp : p.1 = k
    · have hp' : ¬ p.1 = k' := by
        rw [hp]
        exact hk
      rw [if_pos hp, get_cons, if_neg hk, get_cons, if_neg hp']
    · rw [if_neg hp, get_cons, get_cons, ih]

end JsMap

/-! ### BiMap lemmas -/

namespace BiMap

variable [DecidableEq K] [DecidableEq V]

theorem inv_empty : Inv (empty : BiMap K V) := by
  intro k v
  simp [empty, getByKey, getByValue, JsMap.get]

theorem deleteByKey_eq_none {m : BiMap K V} {k : K}
    (hg : JsMap.get m.kvMap k = none) :
    m.deleteByKey k = ⟨JsMap.del m.kvMap k, m.vkMap⟩ := by
  simp only [deleteByKey, hg]

theorem deleteByKey_eq_some {m : BiMap K V} {k : K} {v0 : V}
    (hg : JsMap.get m.kvMap k = some v0) :
    m.deleteByKey k = ⟨JsMap.del m.kvMap k, JsMap.del m.vkMap v0⟩ := by
  simp only [deleteByKey, hg]

theorem deleteByValue_eq_none {m : BiMap K V} {v : V}
    (hg : JsMap.get m.vkMap v = none) :
    m.deleteByValue v = ⟨m.kvMap, JsMap.del m.vkMap v⟩ := by
  simp only [deleteByValue, hg]

theorem deleteByValue_eq_some {m : BiMap K V} {v : V} {k0 : K}
    (hg : JsMap.get m.vkMap v = some k0) :
    m.deleteByValue v = ⟨JsMap.del m.kvMap k0, JsMap.del m.vkMap v⟩ := by
  simp only [deleteByValue, hg]

theorem getByKey_deleteByKey (m : BiMap K V) (k k' : K) :
    getByKey (deleteByKey m k) k' = if k' = k then none else getByKey m k' := by
  have hkv : (deleteByKey m k).kvMap = JsMap.del m.kvMap k := by
    cases hg : JsMap.get m.kvMap k with
    | none => rw [deleteByKey_eq_none hg]
    | some v0 => rw [deleteByKey_eq_some hg]
  show JsMap.get (deleteByKey m k).kvMap k' = _
  rw [hkv]
  by_cases h : k' = k
  · rw [if_pos h, h]
    exact JsMap.get_del_self
  · rw [if_neg h, JsMap.get_del_ne h]
    rfl

theorem getByValue_deleteByValue (m : BiMap K V) (v v' : V) :
    getByValue (deleteByValue m v) v' = if v' = v then none else getByValue m v' := by
  have hvk : (deleteByValue m v).vkMap = JsMap.del m.vkMap v := by
    cases hg : JsMap.get m.vkMap v with
    | none => rw [deleteByValue_eq_none hg]
    | some k0 => rw [deleteByValue_eq_some hg]
  show JsMap.get (deleteByValue m v).vkMap v' = _
  rw [hvk]
  by_cases h : v' = v
  · rw [if_pos h, h]
    exact JsMap.get_del_self
  · rw [if_neg h, JsMap.get_del_ne h]
    rfl

theorem getByValue_deleteByKey {m : BiMap K V} (hm : Inv m) (k : K) (v : V) :
    getByValue (deleteByKey m k) v =
      if getByValue m v = some k then none else getByValue m v := by
  cases hg : JsMap.get m.kvMap k with
  | none =>
    have hc : ¬ (getByValue m v = some k) := by
      intro hcc
      have h2 : getByKey m k = some v := (hm k v).2 hcc
      simp only [getByKey] at h2
      rw [hg] at h2
      exact Option.noConfusion h2
    rw [deleteByKey_eq_none hg, if_neg hc]
    rfl
  | some v0 =>
    rw [deleteByKey_eq_some hg]
    by_cases hv : v = v0
    · subst hv
      have hcond : getByValue m v = some k := (hm k v).1 hg
      rw [if_pos hcond]
      show JsMap.get (JsMap.del m.vkMap v) v = none
      exact JsMap.get_del_self
    · have hcond : ¬ (getByValue m v = some k) := by
        intro hcc
        have h2 : getByKey m k = some v := (hm k v).2 hcc
        simp only [getByKey] at h2
        rw [hg] at h2
        exact hv (Option.some.inj h2).symm
      rw [if_neg hcond]
      show JsMap.get (JsMap.del m.vkMap v0) v = getByValue m v
      rw [JsMap.get_del_ne hv]
      rfl

theorem getByKey_deleteByValue {m : BiMap K V} (hm : Inv m) (v : V) (k : K) :
    getByKey (deleteByValue m v) k =
      if getByKey m k = some v then none else getByKey m k := by
  cases hg : JsMap.get m.vkMap v with
  | none =>
    have hc : ¬ (getByKey m k = some v) := by
      intro hcc
      have h2 : getByValue m v = some k := (hm k v).1 hcc
      simp only [getByValue] at h2
      rw [hg] at h2
      exact Option.noConfusion h2
    rw [deleteByValue_eq_none hg, if_neg hc]
    rfl
  | some k0 =>
    rw [deleteByValue_eq_some hg]
    by_cases hk : k = k0
    · subst hk
      have hcond : getByKey m k = some v := by
        rw [hm k v]
        exact hg
      rw [if_pos hcond]
      show JsMap.get (JsMap.del m.kvMap k) k = none
      exact JsMap.get_del_self
    · have hcond : ¬ (getByKey m k = some v) := by
        intro hcc
        have h2 : getByValue m v = some k := (hm k v).1 hcc
        simp only [getByValue] at h2
        rw [hg] at h2
        exact hk (Option.some.inj h2).symm
      rw [if_neg hcond]
      show JsMap.get (JsMap.del m.kvMap k0) k = getByKey m k
      rw [JsMap.get_del_ne hk]
      rfl

theorem inv_deleteByKey {m : BiMap K V} (hm : Inv m) (k : K) : Inv (deleteByKey m k) := by
  intro k' v
  rw [getByKey_deleteByKey, getByValue_deleteByKey hm]
  by_cases h : k' = k
  · subst h
    by_cases hv : getByValue m v = some k' <;> simp [hv]
  · simp only [h, if_false]
    rw [hm k' v]
    by_cases hv : getByValue m v = some k
    · constructor
      · intro hc
        rw [hc] at hv
        exact absurd (Option.some.inj hv) h
      · intro hc
        simp [hv] at hc
    · simp [hv]

theorem inv_deleteByValue {m : BiMap K V} (hm : Inv m) (v : V) : Inv (deleteByValue m v) := by
  intro k v'
  rw [getByValue_deleteByValue, getByKey_deleteByValue hm]
  by_cases h : v' = v
  · subst h
    by_cases hk : getByKey m k = some v' <;> simp [hk]
  · simp only [h, if_false]
    by_cases hk : getByKey m k = some v
    · constructor
      · intro hc
        simp [hk] at hc
      · intro hc
        have := (hm k v').2 hc
        rw [this] at hk
        exact absurd (Option.some.inj hk) h
    · simp only [hk, if_false]
      exact hm k v'

theorem getByKey_setByKey {m : BiMap K V} (hm : Inv m) (k k' : K) (v : V) :
    getByKey (setByKey m k v) k' =
      if k' = k then some v
      else if getByKey m k' = some v then none else getByKey m k' := by
  show JsMap.get (JsMap.setK ((m.deleteByKey k).deleteByValue v).kvMap k v) k' = _
  by_cases h : k' = k
  · rw [if_pos h, h]
    exact JsMap.get_setK_self
  · rw [if_neg h, JsMap.get_setK_ne h]
    have h1 : Inv (deleteByKey m k) := inv_deleteByKey hm k
    have e2 := getByKey_deleteByValue h1 v k'
    have e1 := getByKey_deleteByKey m k k'
    rw [if_neg h] at e1
    simp only [getByKey] at e1 e2
    rw [e2, e1]
    rfl

theorem getByValue_setByKey {m : BiMap K V} (hm : Inv m) (k : K) (v v' : V) :
    getByValue (setByKey m k v) v' =
      if v' = v then some k
      else if getByValue m v' = some k then none else getByValue m v' := by
  show JsMap.get (JsMap.setK ((m.deleteByKey k).deleteByValue v).vkMap v k) v' = _
  by_cases h : v' = v
  · rw [if_pos h, h]
    exact JsMap.get_setK_self
  · rw [if_neg h, JsMap.get_setK_ne h]
    have e2 := getByValue_deleteByValue (m.deleteByKey k) v v'
    rw [if_neg h] at e2
    have e1 := getByValue_deleteByKey hm k v'
    simp only [getByValue] at e1 e2
    rw [e2, e1]
    rfl

theorem getByKey_setByValue {m : BiMap K V} (hm : Inv m) (v : V) (k k' : K) :
    getByKey (setByValue m v k) k' =
      if k' = k then some v
      else if getByKey m k' = some v then none else getByKey m k' := by
  show JsMap.get (JsMap.setK ((m.deleteByValue v).deleteByKey k).kvMap k v) k' = _
  by_cases h : k' = k
  · rw [if_pos h, h]
    exact JsMap.get_setK_self
  · rw [if_neg h, JsMap.get_setK_ne h]
    have e2 := getByKey_deleteByKey (m.deleteByValue v) k k'
    rw [if_neg h] at e2
    have e1 := getByKey_deleteByValue hm v k'
    simp only [getByKey] at e1 e2
    rw [e2, e1]
    rfl

theorem getByValue_setByValue {m : BiMap K V} (hm : Inv m) (v : V) (k : K) (v' : V) :
    getByValue (setByValue m v k) v' =
      if v' = v then some k
      else if getByValue m v' = some k then none else getByValue m v' := by
  show JsMap.get (JsMap.setK ((m.deleteByValue v).deleteByKey k).vkMap v k) v' = _
  by_cases h : v' = v
  · rw [if_pos h, h]
    exact JsMap.get_setK_self
  · rw [if_neg h, JsMap.get_setK_ne h]
    have h1 : Inv (deleteByValue m v) := inv_deleteByValue hm v
    have e2 := getByValue_deleteByKey h1 k v'
    have e1 := getByValue_deleteByValue m v v'
    rw [if_neg h] at e1
    simp only [getByValue] at e1 e2
    rw [e2, e1]
    rfl

theorem inv_of_overwrite {m m' : BiMap K V} (hm : Inv m) (k : K) (v : V)
    (hK : ∀ k', getByKey m' k' =
      if k' = k then some v
      else if getByKey m k' = some v then none else getByKey m k')
    (hV : ∀ v', getByValue m' v' =
      if v' = v then some k
      else if getByValue m v' = some k then none else getByValue m v') :
    Inv m' := by
  intro k' v'
  rw [hK k', hV v']
  by_cases hk : k' = k
  · subst hk
    by_cases hv : v' = v
    · subst hv
      simp
    · rw [if_pos rfl, if_neg hv]
      constructor
      · intro hc
        exact absurd (Option.some.inj hc).symm hv
      · intro hc
        by_cases hg : getByValue m v' = some k'
        · rw [if_pos hg] at hc
          exact Option.noConfusion hc
        · rw [if_neg hg] at hc
          exact absurd hc hg
  · rw [if_neg hk]
    by_cases hv : v' = v
    · subst hv
      rw [if_pos rfl]
      constructor
      · intro hc
        by_cases hg : getByKey m k' = some v'
        · rw [if_pos hg] at hc
          exact Option.noConfusion hc
        · rw [if_neg hg] at hc
          exact absurd hc hg
      · intro hc
        exact absurd (Option.some.inj hc).symm hk
    · rw [if_neg hv]
      by_cases hg1 : getByKey m k' = some v'
      · have hg2 : getByValue m v' = some k' := (hm k' v').1 hg1
        have hc1 : ¬ getByKey m k' = some v := by
          rw [hg1]
          intro hcc
          exact hv (Option.some.inj hcc)
        have hc2 : ¬ getByValue m v' = some k := by
          rw [hg2]
          intro hcc
          exact hk (Option.some.inj hcc)
        rw [if_neg hc1, if_neg hc2, hg1, hg2]
        simp
      · have hg2 : ¬ getByValue m v' = some k' := fun hc => hg1 ((hm k' v').2 hc)
        constructor
        · intro hc
          by_cases hcc : getByKey m k' = some v
          · rw [if_pos hcc] at hc
            exact Option.noConfusion hc
          · rw [if_neg hcc] at hc
            exact absurd hc hg1
        · intro hc
          by_cases hcc : getByValue m v' = some k
          · rw [if_pos hcc] at hc
            exact Option.noConfusion hc
          · rw [if_neg hcc] at hc
            exact absurd hc hg2

theorem inv_setByKey {m : BiMap K V} (hm : Inv m) (k : K) (v : V) :
    Inv (setByKey m k v) :=
  inv_of_overwrite hm k v (fun k' => getByKey_setByKey hm k k' v)
    (fun v' => getByValue_setByKey hm k v v')

theorem inv_setByValue {m : BiMap K V} (hm : Inv m) (v : V) (k : K) :
    Inv (setByValue m v k) :=
  inv_of_overwrite hm k v (fun k' => getByKey_setByValue hm v k k')
    (fun v' => getByValue_setByValue hm v k v')

theorem inv_clear (m : BiMap K V) : Inv (m.clear) := by
  intro k v
  simp [clear, getByKey, getByValue, JsMap.get]


theorem inv_apply (hm : Inv m) (op : BMOp K V) : Inv (op.apply m) := by
  cases op with
  | setByKey k v => exact inv_setByKey hm k v
  | setByValue v k => exact inv_setByValue hm v k
  | deleteByKey k => exact inv_deleteByKey hm k
  | deleteByValue v => exact inv_deleteByValue hm v
  | clear => exact inv_clear m

theorem inv_foldl (hm : Inv m) (ops : List (BMOp K V)) :
    Inv (ops.foldl BMOp.apply m) := by
  induction ops generalizing m with
  | nil => exact hm
  | cons op ops ih => exact ih (inv_apply hm op)

end BiMap

/-! ### List helper lemmas -/

theorem getD_eq_get? {l : List α} {n : Nat} {d : α} : l.getD n d = (l.get? n).getD d := by
  simp [List.getD_eq_getElem?_getD, List.get?_eq_getElem?]

theorem get?_set_self {l : List α} {i : Nat} {a : α} (h : i < l.length) :
    (l.set i a).get? i = some a := by
  simp [List.get?_eq_getElem?, List.getElem?_set_self', h]

theorem get?_set_ne {l : List α} {i j : Nat} {a : α} (h : i ≠ j) :
    (l.set i a).get? j = l.get? j := by
  simp [List.get?_eq_getElem?, List.getElem?_set_ne h]

theorem idxOf?_lt {p : α → Bool} {l : List α} {i : Nat}
    (h : idxOf? p l = some i) : i < l.length := by
  induction l generalizing i with
  | nil => exact absurd h (by simp [idxOf?])
  | cons a l ih =>
    rw [idxOf?] at h
    by_cases hp : p a
    · rw [if_pos hp] at h
      cases h
      simp
    · rw [if_neg hp] at h
      cases hi : idxOf? p l with
      | none => rw [hi] at h; exact absurd h (by simp)
      | some j =>
        rw [hi] at h
        simp only [Option.map_some'] at h
        cases h
        have := ih hi
        simp
        omega

theorem idxOf?_pred {p : α → Bool} {l : List α} {i : Nat} {d : α}
    (h : idxOf? p l = some i) : p (l.getD i d) = true := by
  induction l generalizing i with
  | nil => exact absurd h (by simp [idxOf?])
  | cons a l ih =>
    rw [idxOf?] at h
    by_cases hp : p a
    · rw [if_pos hp] at h
      cases h
      simpa using hp
    · rw [if_neg hp] at h
      cases hi : idxOf? p l with
      | none => rw [hi] at h; exact absurd h (by simp)
      | some j =>
        rw [hi] at h
        simp only [Option.map_some'] at h
        cases h
        simpa using ih hi

/-! ### Single-value and multi-value setter characterization -/

theorem run_set_single_nonid {n : Nat} {env : Env} {w : World} {e : Nat}
    {nm : String} {v : Raw} {ent : Entry} {i : Nat} {old : Option Val}
    (ha : w.reg.arena.get? e = some ent)
    (hf : ent.findProp nm = some (.base i))
    (hd : (ent.base.getD i default).data = .single old)
    (hni : (ent.base.getD i default).col.isId = false) :
    run (n + 1) env w (.setJ e nm v) = .ok
      (w.withReg (withEntry w.reg e
          (setBaseProp i ((ent.base.getD i default).withSingle v.asSingleValue
            ((ent.base.getD i default).dirty ||
              decide (¬ old = v.asSingleValue))))), .unit) := by
  simp only [run, ha, hf, hd, hni, World.withReg, Bool.false_eq_true, if_false]

theorem run_set_single_id {n : Nat} {env : Env} {w : World} {e : Nat}
    {nm : String} {v : Raw} {ent : Entry} {i : Nat} {old : Option Val}
    (ha : w.reg.arena.get? e = some ent)
    (hf : ent.findProp nm = some (.base i))
    (hd : (ent.base.getD i default).data = .single old)
    (hid : (ent.base.getD i default).col.isId = true) :
    run (n + 1) env w (.setJ e nm v) =
      (match registerId (withEntry w.reg e
          (setBaseProp i ((ent.base.getD i default).withSingle v.asSingleValue
            ((ent.base.getD i default).dirty ||
              decide (¬ old = v.asSingleValue))))) e with
       | .ok r2 => .ok ({ w with reg := r2 }, .unit)
       | .error er => .error er) := by
  simp only [run, ha, hf, hd, hid, eq_self_iff_true, if_true]

theorem run_set_multi {n : Nat} {env : Env} {w : World} {e : Nat}
    {nm : String} {v : Raw} {ent : Entry} {i : Nat}
    {old : Option (List (Option Val))}
    (ha : w.reg.arena.get? e = some ent)
    (hf : ent.findProp nm = some (.base i))
    (hd : (ent.base.getD i default).data = .multi old) :
    run (n + 1) env w (.setJ e nm v) = .ok
      (w.withReg (withEntry w.reg e
          (setBaseProp i ((ent.base.getD i default).withMulti v.asMultiValue
            ((ent.base.getD i default).dirty ||
              isMultiValueDirty old v.asMultiValue)))), .unit) := by
  simp only [run, ha, hf, hd, World.withReg]

theorem basePropAt_withEntry_set {r : Reg} {e : Nat} {ent : Entry} {i : Nat}
    {p1 : BProp} (ha : r.arena.get? e = some ent) (hi : i < ent.base.length) :
    basePropAt (withEntry r e (setBaseProp i p1)) e i = p1 := by
  have he : e < r.arena.length := (List.get?_eq_some.mp ha).1
  unfold withEntry
  rw [ha]
  unfold basePropAt
  simp only
  rw [get?_set_self he]
  simp only [Option.map_some', Option.getD_some, setBaseProp]
  rw [getD_eq_get?, get?_set_self hi]
  rfl

theorem isMultiValueDirty_iff (v1 v2 : Option (List (Option Val))) :
    isMultiValueDirty v1 v2 = true ↔
      (¬ v1.isNone = v2.isNone ∨
       ¬ (v1.getD []).length = (v2.getD []).length ∨
       ∃ i, i < max (v1.getD []).length (v2.getD []).length ∧
         ¬ jsIndexV (v1.getD []) i = jsIndexV (v2.getD []) i) := by
  unfold isMultiValueDirty
  by_cases h1 : v1.isNone = v2.isNone
  · rw [if_neg (by simpa using h1)]
    by_cases h2 : (v1.getD []).length = (v2.getD []).length
    · rw [if_neg (by simpa using h2)]
      simp only [List.any_eq_true, List.mem_range, decide_eq_true_eq]
      constructor
      · rintro ⟨i, hi, hne⟩
        exact Or.inr (Or.inr ⟨i, hi, hne⟩)
      · rintro (hc | hc | ⟨i, hi, hne⟩)
        · exact absurd h1 hc
        · exact absurd h2 hc
        · exact ⟨i, hi, hne⟩
    · rw [if_pos (by simpa using h2)]
      simp only [true_iff]
      exact Or.inr (Or.inl h2)
  · rw [if_pos (by simpa using h1)]
    simp only [true_iff]
    exact Or.inl h1

/-- C8: assigning a scalar value marks the property dirty exactly when the
new value differs from the stored one and dirty stays set once set
(dirty' = dirty || old ≠ new); for array-of-scalar properties the
comparison `isMultiValueDirty` is element-wise and length-sensitive
(true iff one side is undefined and the other not, the lengths differ, or
some element at the same index differs), and the multi-value setter marks
dirty' = dirty || isMultiValueDirty old new; setting the id property
additionally re-registers the owning entry in the identity map through
`registerId`. -/
theorem C8_dirty_tracking :
    (∀ (n : Nat) (env : Env) (w : World) (e : Nat) (nm : String) (v : Raw)
       (ent : Entry) (i : Nat) (old : Option Val),
       w.reg.arena.get? e = some ent →
       ent.findProp nm = some (.base i) →
       (ent.base.getD i default).data = .single old →
       (ent.base.getD i default).col.isId = false →
       ∃ w', run (n + 1) env w (.setJ e nm v) = .ok (w', .unit) ∧
         (basePropAt w'.reg e i).data = .single v.asSingleValue ∧
         (basePropAt w'.reg e i).dirty =
           ((ent.base.getD i default).dirty || decide (¬ old = v.asSingleValue))) ∧
    (∀ v1 v2, isMultiValueDirty v1 v2 = true ↔
       (¬ v1.isNone = v2.isNone ∨
        ¬ (v1.getD []).length = (v2.getD []).length ∨
        ∃ i, i < max (v1.getD []).length (v2.getD []).length ∧
          ¬ jsIndexV (v1.getD []) i = jsIndexV (v2.getD []) i)) ∧
    (∀ (n : Nat) (env : Env) (w : World) (e : Nat) (nm : String) (v : Raw)
       (ent : Entry) (i : Nat) (old : Option (List (Option Val))),
       w.reg.arena.get? e = some ent →
       ent.findProp nm = some (.base i) →
       (ent.base.getD i default).data = .multi old →
       ∃ w', run (n + 1) env w (.setJ e nm v) = .ok (w', .unit) ∧
         (basePropAt w'.reg e i).data = .multi v.asMultiValue ∧
         (basePropAt w'.reg e i).dirty =
           ((ent.base.getD i default).dirty || isMultiValueDirty old v.asMultiValue)) ∧
    (∀ (n : Nat) (env : Env) (w : World) (e : Nat) (nm : String) (v : Raw)
       (ent : Entry) (i : Nat) (old : Option Val),
       w.reg.arena.get? e = some ent →
       ent.findProp nm = some (.base i) →
       (ent.base.getD i default).data = .single old →
       (ent.base.getD i default).col.isId = true →
       run (n + 1) env w (.setJ e nm v) =
         (match registerId (withEntry w.reg e
             (setBaseProp i ((ent.base.getD i default).withSingle v.asSingleValue
               ((ent.base.getD i default).dirty ||
                 decide (¬ old = v.asSingleValue))))) e with
          | .ok r2 => .ok ({ w with reg := r2 }, .unit)
          | .error er => .error er)) := by
  refine ⟨?_, isMultiValueDirty_iff, ?_, ?_⟩
  · intro n env w e nm v ent i old ha hf hd hni
    have hi : i < ent.base.length := by
      unfold Entry.findProp at hf
      cases hb : idxOf? (fun p => decide (p.col.name = nm)) ent.base with
      | some i0 =>
        rw [hb] at hf
        cases hf
        exact idxOf?_lt hb
      | none =>
        rw [hb] at hf
        cases hr : (idxOf? (fun p => decide (p.col.name = nm)) ent.rels) with
        | none => rw [hr] at hf; exact absurd hf (by simp)
        | some j => rw [hr] at hf; simp at hf
    refine ⟨_, run_set_single_nonid ha hf hd hni, ?_, ?_⟩
    · simp only [World.withReg]
      rw [basePropAt_withEntry_set ha hi]
      rfl
    · simp only [World.withReg]
      rw [basePropAt_withEntry_set ha hi]
      rfl
  · intro n env w e nm v ent i old ha hf hd
    have hi : i < ent.base.length := by
      unfold Entry.findProp at hf
      cases hb : idxOf? (fun p => decide (p.col.name = nm)) ent.base with
      | some i0 =>
        rw [hb] at hf
        cases hf
        exact idxOf?_lt hb
      | none =>
        rw [hb] at hf
        cases hr : (idxOf? (fun p => decide (p.col.name = nm)) ent.rels) with
        | none => rw [hr] at hf; exact absurd hf (by simp)
        | some j => rw [hr] at hf; simp at hf
    refine ⟨_, run_set_multi ha hf hd, ?_, ?_⟩
    · simp only [World.withReg]
      rw [basePropAt_withEntry_set ha hi]
      rfl
    · simp only [World.withReg]
      rw [basePropAt_withEntry_set ha hi]
      rfl
  · intro n env w e nm v ent i old ha hf hd hid
    exact run_set_single_id ha hf hd hid

/-- C8 witness: the single-value setter at a concrete clean property
becomes dirty exactly because the value changed. -/
theorem C8_dirty_tracking_witness :
    ∃ w', run 1 envSimple wSimpleFresh (.setJ 0 "key" (.str "x")) = .ok (w', .unit) ∧
      (basePropAt w'.reg 0 1).data = .single (Raw.str "x").asSingleValue ∧
      (basePropAt w'.reg 0 1).dirty =
        ((entSimpleFresh.base.getD 1 default).dirty ||
          decide (¬ (none : Option Val) = (Raw.str "x").asSingleValue)) := by
  exact C8_dirty_tracking.1 0 envSimple wSimpleFresh 0 "key" (.str "x")
    entSimpleFresh 1 none rfl rfl rfl rfl

/-! ### C5: save precondition and update key set -/

theorem get_applyChanges_notin {row : DBRow} {changes : List (String × CVal)}
    {c : String} (h : ∀ p ∈ changes, p.1 ≠ c) :
    JsMap.get (applyChanges row changes) c = JsMap.get row c := by
  induction changes generalizing row with
  | nil => rfl
  | cons p rest ih =>
    unfold applyChanges at ih ⊢
    rw [List.foldl_cons]
    rw [ih (fun q hq => h q (List.mem_cons_of_mem p hq))]
    exact JsMap.get_setK_ne (fun hc => h p (List.mem_cons_self p rest) hc.symm)

theorem dbTable_dbSet_self (db : DB) (t : Nat) (tb : DBTable) :
    dbTable (dbSet db t tb) t = tb := by
  unfold dbTable dbSet
  rw [JsMap.get_setK_self]
  rfl

theorem mem_saveKeysV1 {env : Env} {t : Nat} {value : List (String × Option Val)}
    {nm : String} :
    nm ∈ saveKeysV1 env t value ↔
      ∃ c ∈ (tableOf env t).baseColumns,
        c.name = nm ∧ c.isId = false ∧ JsMap.has value nm = true := by
  unfold saveKeysV1
  simp only [List.mem_map, List.mem_filter]
  constructor
  · rintro ⟨c, ⟨⟨hc, hni⟩, hhas⟩, hnm⟩
    subst hnm
    exact ⟨c, hc, rfl, by simpa using hni, hhas⟩
  · rintro ⟨c, hc, hnm, hni, hhas⟩
    subst hnm
    exact ⟨c, ⟨⟨hc, by simpa using hni⟩, hhas⟩, rfl⟩

/-- C5 amended: save without the table's primary-key field fails
immediately with the precondition error and issues no SQL; with the id
present, exactly one update statement runs, filtered by the primary key,
whose change set covers exactly the provided non-id base columns (the
generated flag is not consulted, so provided generated columns are
written too); rows not matching the id are unchanged, and every column
outside the change set keeps its value on the matching rows. -/
theorem C5_save (env : Env) (w : World) (t : Nat)
    (value : List (String × Option Val)) (idn : String)
    (hid : tableIdName env t = some idn) :
    (JsMap.has value idn = false →
      saveRunV1 env w t value = .error .mustSpecifyId) ∧
    (JsMap.has value idn = true →
      saveRunV1 env w t value = .ok
        { w with
          db := (dbUpdate w.db t idn (.v ((JsMap.get value idn).join))
            (saveChangesV1 env t value)).2,
          trace := w.trace ++ [.updateS t idn (.v ((JsMap.get value idn).join))
            (saveChangesV1 env t value)] }) ∧
    ((saveChangesV1 env t value).map Prod.fst = saveKeysV1 env t value) ∧
    (∀ nm, nm ∈ saveKeysV1 env t value ↔
      ∃ c ∈ (tableOf env t).baseColumns,
        c.name = nm ∧ c.isId = false ∧ JsMap.has value nm = true) ∧
    (∀ x changes,
      (dbTable (dbUpdate w.db t idn x changes).2 t).rows =
        (dbTable w.db t).rows.map (fun row =>
          if rowMatches row idn x then applyChanges row changes else row)) ∧
    (∀ (row : DBRow) (changes : List (String × CVal)) (c : String),
      (∀ p ∈ changes, p.1 ≠ c) →
      JsMap.get (applyChanges row changes) c = JsMap.get row c) := by
  refine ⟨?_, ?_, ?_, fun nm => mem_saveKeysV1, ?_, fun row changes c h => get_applyChanges_notin h⟩
  · intro h
    simp only [saveRunV1, hid, h, Bool.false_eq_true, if_false]
  · intro h
    simp only [saveRunV1, hid, h, if_true]
  · unfold saveChangesV1 saveKeysV1
    rw [List.map_map]
    rfl
  · intro x changes
    unfold dbUpdate
    simp only
    rw [dbTable_dbSet_self]

/-- C5 witness: with the id present, the concrete save updates by primary
key. -/
theorem C5_save_witness :
    JsMap.has saveValGen "id" = true ∧
    saveRunV1 envGen wGen 0 saveValGen = .ok
      { wGen with
        db := (dbUpdate wGen.db 0 "id" (.v ((JsMap.get saveValGen "id").join))
          (saveChangesV1 envGen 0 saveValGen)).2,
        trace := wGen.trace ++ [.updateS 0 "id" (.v ((JsMap.get saveValGen "id").join))
          (saveChangesV1 envGen 0 saveValGen)] } :=
  ⟨by decide, (C5_save envGen wGen 0 saveValGen "id" rfl).2.1 (by decide)⟩

/-- C5 counterexample: the update key set of a concrete save call
includes the provided generated column "g" (the source filters only on
the id flag, query.ts:395-398), so the emitted update writes a generated
column — contradicting "the update writes only the provided non-id,
non-generated base columns". -/
theorem C5_counterexample :
    saveKeysV1 envGen 0 saveValGen = ["g"] ∧
    ((tableOf envGen 0).baseColumns.getD 1 default).generated = true ∧
    ((tableOf envGen 0).baseColumns.getD 1 default).name = "g" ∧
    (saveRunV1 envGen wGen 0 saveValGen).map World.trace =
      .ok [.updateS 0 "id" (.v (some "1")) [("g", .v (some "9"))]] :=
  ⟨rfl, rfl, rfl, rfl⟩

/-! ### C7: metadata registry memoization -/

theorem mrun_get_cached {n : Nat} {r r' : MReg} {s : PSchema} {i : Nat}
    (h : mrun (n + 1) r (.get s) = .ok (r', some i)) :
    ∃ name, readEntityE s = .ok (some name) ∧ JsMap.get r'.cache name = some i := by
  simp only [mrun] at h
  cases he : readEntityE s with
  | error e =>
    simp only [he] at h
    exact Except.noConfusion h
  | ok o =>
    cases o with
    | none =>
      simp only [he] at h
      exact Except.noConfusion h
    | some name =>
      simp only [he] at h
      refine ⟨name, rfl, ?_⟩
      cases hc : JsMap.get r.cache name with
      | some i0 =>
        simp only [hc, Except.ok.injEq, Prod.mk.injEq, Option.some.injEq] at h
        obtain ⟨hr, hi⟩ := h
        subst hr
        subst hi
        exact hc
      | none =>
        simp only [hc] at h
        cases hb : mrun n { r with arena := r.arena ++ [⟨name, [], []⟩] }
            (.build r.arena.length (readPropertiesP s)) with
        | error e =>
          simp only [hb] at h
          exact Except.noConfusion h
        | ok p =>
          obtain ⟨r2, snd⟩ := p
          simp only [hb, Except.ok.injEq, Prod.mk.injEq, Option.some.injEq] at h
          obtain ⟨hr, hi⟩ := h
          subst hi
          rw [← hr]
          exact JsMap.get_setK_self

/-- C7 amended: metadata derivation is memoized by entity name with the
cache entry written only after construction completes: retrieving the
metadata of the same description again from the resulting registry
returns the same table index with the registry unchanged; a description
lacking both an entity and a table name is a fatal configuration error.
(A name re-entered while still under construction misses the cache and a
second TableMetadata is built for it — see the counterexample.) -/
theorem C7_memoization :
    (∀ (n : Nat) (r r' : MReg) (s : PSchema) (i : Nat),
      mrun (n + 1) r (.get s) = .ok (r', some i) →
      ∀ m, mrun (m + 1) r' (.get s) = .ok (r', some i)) ∧
    (∀ (n : Nat) (r : MReg) (s : PSchema),
      readEntityE s = .ok none →
      mrun (n + 1) r (.get s) = .error .missingEntityName) := by
  constructor
  · intro n r r' s i h m
    obtain ⟨name, hname, hcache⟩ := mrun_get_cached h
    simp only [mrun, hname, hcache]
  · intro n r s h
    simp only [mrun, h]

/-- C7 witness: re-deriving the parent description from the registry the
first derivation produced returns the same table object, and a
description with no entity/table name is rejected. -/
theorem C7_memoization_witness :
    (∃ r', mget 10 MReg.empty parentSchema = .ok (0, r') ∧
      mrun 4 r' (.get parentSchema) = .ok (r', some 0)) ∧
    mrun 1 MReg.empty (.get noNameSchema) = .error .missingEntityName := by
  constructor
  · have h : mrun 10 MReg.empty (.get parentSchema) =
        .ok (mgetParentReg, some 0) := rfl
    exact ⟨mgetParentReg, rfl, C7_memoization.1 9 MReg.empty mgetParentReg parentSchema 0 h 3⟩
  · exact C7_memoization.2 0 MReg.empty noNameSchema rfl

/-- C7 counterexample: deriving the mutually-referencing descriptions
builds two distinct TableMetadata objects for the entity name "a"
(arena indices 0 and 2): the registry caches "a" only after the outer
construction finishes, so the nested reference to "a" misses the cache
and constructs a second table, and "b"'s relation resolves to index 2
while the registry resolves "a" to index 0 — refuting "cyclic or
mutually-referencing entity descriptions resolve to the same metadata
object". -/
theorem C7_counterexample :
    (mget 10 MReg.empty schemaA).map (fun p =>
      (p.1, p.2.arena.map MTable.name, JsMap.get p.2.cache "a",
        (mtableOf p.2 1).relationColumns.map MRel.foreignTable)) =
      .ok (0, ["a", "b", "a"], some 0, [2]) := rfl

/-! ### C6: join-column synthesis -/

theorem readAttr_setAttr_self (s : PSchema) (nm : String) (v : SAttr) :
    (s.setAttr nm v).readAttr nm = some v := by
  cases s <;> simp [PSchema.setAttr, PSchema.readAttr, JsMap.get_setK_self, Option.or]

theorem readAttr_setAttr_ne (s : PSchema) {nm nm' : String} (v : SAttr)
    (h : nm' ≠ nm) :
    (s.setAttr nm v).readAttr nm' = s.readAttr nm' := by
  cases s <;> simp [PSchema.setAttr, PSchema.readAttr, JsMap.get_setK_ne h]

theorem readAttr_optionalW (s : PSchema) (nm : String) :
    s.optionalW.readAttr nm = s.readAttr nm := by
  simp [PSchema.optionalW, PSchema.readAttr, JsMap.get, Option.or]

theorem detectNullableP_setAttr (s : PSchema) (nm : String) (v : SAttr) :
    detectNullableP (s.setAttr nm v) = detectNullableP s := by
  cases s <;> rfl

theorem detectCollectionP_setAttr (s : PSchema) (nm : String) (v : SAttr) :
    detectCollectionP (s.setAttr nm v) = detectCollectionP s := by
  cases s <;> rfl

theorem joinColumnSchema_readAttr_other (t : PSchema) (b : Bool) {nm : String}
    (h1 : nm ≠ "id") (h2 : nm ≠ "generated") :
    (joinColumnSchema t b).readAttr nm = t.readAttr nm := by
  unfold joinColumnSchema
  cases b with
  | true =>
    simp only [if_true]
    rw [readAttr_optionalW, readAttr_setAttr_ne _ _ h2, readAttr_setAttr_ne _ _ h1]
  | false =>
    simp only [Bool.false_eq_true, if_false]
    rw [readAttr_setAttr_ne _ _ h2, readAttr_setAttr_ne _ _ h1]

theorem joinColumnSchema_id (t : PSchema) (b : Bool) :
    readIdE (joinColumnSchema t b) = .ok false := by
  unfold readIdE readBoolAttr joinColumnSchema
  cases b with
  | true =>
    simp only [if_true]
    rw [readAttr_optionalW, readAttr_setAttr_ne _ _ (by decide : "id" ≠ "generated"),
      readAttr_setAttr_self]
    rfl
  | false =>
    simp only [Bool.false_eq_true, if_false]
    rw [readAttr_setAttr_ne _ _ (by decide : "id" ≠ "generated"), readAttr_setAttr_self]
    rfl

theorem joinColumnSchema_nullable (t : PSchema) (b : Bool) :
    detectNullableP (joinColumnSchema t b) = (detectNullableP t || b) := by
  unfold joinColumnSchema
  cases b with
  | true =>
    simp [PSchema.optionalW, detectNullableP]
  | false =>
    simp only [Bool.false_eq_true, if_false, Bool.or_false]
    rw [detectNullableP_setAttr, detectNullableP_setAttr]

theorem joinColumnSchema_generated_plain (t : PSchema) (b : Bool)
    (h1 : t.readAttr "generate" = none) (h2 : t.readAttr "gen" = none) :
    readGeneratedE (joinColumnSchema t b) = .ok false := by
  unfold readGeneratedE readBoolAttr
  rw [joinColumnSchema_readAttr_other t b (by decide) (by decide), h1]
  simp only
  rw [joinColumnSchema_readAttr_other t b (by decide) (by decide), h2]
  simp only
  unfold joinColumnSchema
  cases b with
  | true =>
    simp only [if_true]
    rw [readAttr_optionalW, readAttr_setAttr_self]
    rfl
  | false =>
    simp only [Bool.false_eq_true, if_false]
    rw [readAttr_setAttr_self]
    rfl

theorem mtableOf_mwith_self {r : MReg} {t : Nat} {f : MTable → MTable}
    (h : t < r.arena.length) : mtableOf (mwith r t f) t = f (mtableOf r t) := by
  unfold mtableOf mwith
  simp only
  rw [getD_eq_get?, get?_set_self h, getD_eq_get?]
  rfl

theorem mtableOf_mwith_ne {r : MReg} {t t' : Nat} {f : MTable → MTable}
    (h : t' ≠ t) : mtableOf (mwith r t f) t' = mtableOf r t' := by
  unfold mtableOf mwith
  simp only
  rw [getD_eq_get?, get?_set_ne (fun hh => h hh.symm), getD_eq_get?]

theorem mkMCol_fields {tIdx : Nat} {nm : String} {s : PSchema} {declared : Bool}
    {c : MCol} (h : mkMCol tIdx nm s declared = .ok c) :
    c.table = tIdx ∧ c.name = nm ∧ c.schema = s ∧ c.declared = declared ∧
      readIdE s = .ok c.id ∧ readGeneratedE s = .ok c.generated ∧
      c.nullable = detectNullableP s ∧ c.collection = detectCollectionP s := by
  unfold mkMCol at h
  cases hi : readIdE s with
  | error e => rw [hi] at h; exact Except.noConfusion h
  | ok idf =>
    rw [hi] at h
    cases hg : readGeneratedE s with
    | error e => rw [hg] at h; exact Except.noConfusion h
    | ok genf =>
      rw [hg] at h
      simp only [Except.ok.injEq] at h
      subst h
      exact ⟨rfl, rfl, rfl, rfl, rfl, rfl, rfl, rfl⟩

/-- C6 amended: for every relation column, if no explicit join-column
name is declared the name defaults to targetTableName_targetIdColumnName;
a column of that name already present on the owning table is reused
(nothing is appended), otherwise a new undeclared column with that name
is synthesized from the target id column's schema (with the 'id' and
'generated' attributes overridden to false) and appended to the owning
table's base columns; the synthesized column's id flag is false, it is
non-generated whenever the target id schema does not use the
'generate'/'gen' alias attributes, and it is nullable iff the target id
column's schema is optional/nullable or the relation itself is. -/
theorem C6_join_column (r : MReg) (tIdx : Nat) (key : String) (fs : PSchema)
    (ftIdx : Nat) (flags : MCol) (owner : Owner) (targetCol : MCol)
    (jn : Option String) (r' : MReg)
    (hflags : mkMCol tIdx key fs true = .ok flags)
    (howner : (if flags.collection then Except.ok Owner.foreign
        else readJoinOwnerE fs : Except MErr Owner) = .ok owner)
    (htarget : mtableIdCol r (if owner = Owner.source then ftIdx else tIdx) =
      some targetCol)
    (hjn : readJoinNameE fs = .ok jn)
    (hown : (if owner = Owner.source then tIdx else ftIdx) < r.arena.length)
    (h : addRelColumn r tIdx key fs ftIdx = .ok r') :
    (mtableHasColumn
        (mtableOf r (if owner = Owner.source then tIdx else ftIdx))
        (jn.getD ((mtableOf r (if owner = Owner.source then ftIdx else tIdx)).name
          ++ "_" ++ targetCol.name)) = true →
      (mtableOf r' (if owner = Owner.source then tIdx else ftIdx)).baseColumns =
        (mtableOf r (if owner = Owner.source then tIdx else ftIdx)).baseColumns) ∧
    (mtableHasColumn
        (mtableOf r (if owner = Owner.source then tIdx else ftIdx))
        (jn.getD ((mtableOf r (if owner = Owner.source then ftIdx else tIdx)).name
          ++ "_" ++ targetCol.name)) = false →
      ∃ newCol,
        mkMCol (if owner = Owner.source then tIdx else ftIdx)
          (jn.getD ((mtableOf r (if owner = Owner.source then ftIdx else tIdx)).name
            ++ "_" ++ targetCol.name))
          (joinColumnSchema targetCol.schema flags.nullable) false = .ok newCol ∧
        (mtableOf r' (if owner = Owner.source then tIdx else ftIdx)).baseColumns =
          (mtableOf r (if owner = Owner.source then tIdx else ftIdx)).baseColumns
            ++ [newCol] ∧
        newCol.name =
          jn.getD ((mtableOf r (if owner = Owner.source then ftIdx else tIdx)).name
            ++ "_" ++ targetCol.name) ∧
        newCol.declared = false ∧
        newCol.id = false ∧
        newCol.nullable = (detectNullableP targetCol.schema || flags.nullable) ∧
        (targetCol.schema.readAttr "generate" = none →
          targetCol.schema.readAttr "gen" = none →
          newCol.generated = false)) := by
  unfold addRelColumn at h
  rw [hflags] at h
  simp only at h
  rw [howner] at h
  simp only at h
  rw [htarget] at h
  simp only at h
  rw [hjn] at h
  simp only at h
  cases hhas : mtableHasColumn
      (mtableOf r (if owner = Owner.source then tIdx else ftIdx))
      (jn.getD ((mtableOf r (if owner = Owner.source then ftIdx else tIdx)).name
        ++ "_" ++ targetCol.name)) with
  | true =>
    rw [hhas] at h
    simp only [if_true] at h
    refine ⟨fun _ => ?_, fun hc => Bool.noConfusion hc⟩
    cases hr : readReferenceE fs with
    | error e => rw [hr] at h; exact Except.noConfusion h
    | ok ref =>
      rw [hr] at h
      simp only [Except.ok.injEq] at h
      subst h
      by_cases ht : (if owner = Owner.source then tIdx else ftIdx) = tIdx
      · rw [ht, mtableOf_mwith_self (by rw [← ht]; exact hown)]
      · rw [mtableOf_mwith_ne ht]
  | false =>
    rw [hhas] at h
    simp only [Bool.false_eq_true, if_false] at h
    refine ⟨fun hc => Bool.noConfusion hc, fun _ => ?_⟩
    cases hmk : mkMCol (if owner = Owner.source then tIdx else ftIdx)
        (jn.getD ((mtableOf r (if owner = Owner.source then ftIdx else tIdx)).name
          ++ "_" ++ targetCol.name))
        (joinColumnSchema targetCol.schema flags.nullable) false with
    | error e => rw [hmk] at h; exact Except.noConfusion h
    | ok newCol =>
      rw [hmk] at h
      simp only at h
      cases hr : readReferenceE fs with
      | error e => rw [hr] at h; exact Except.noConfusion h
      | ok ref =>
        rw [hr] at h
        simp only [Except.ok.injEq] at h
        subst h
        obtain ⟨hT, hN, hS, hD, hI, hG, hNu, hC⟩ := mkMCol_fields hmk
        refine ⟨newCol, rfl, ?_, hN, hD, ?_, ?_, ?_⟩
        · -- base columns of the owning table after both arena writes
          have hbase :
              (mtableOf (mwith r (if owner = Owner.source then tIdx else ftIdx)
                (fun tb => { tb with baseColumns := tb.baseColumns ++ [newCol] }))
                (if owner = Owner.source then tIdx else ftIdx)).baseColumns =
              (mtableOf r (if owner = Owner.source then tIdx else ftIdx)).baseColumns
                ++ [newCol] := by
            rw [mtableOf_mwith_self hown]
          by_cases ht : (if owner = Owner.source then tIdx else ftIdx) = tIdx
          · rw [ht] at hbase ⊢
            rw [mtableOf_mwith_self]
            · rw [hbase]
            · unfold mwith
              simp only [List.length_set]
              rw [← ht]
              exact hown
          · rw [mtableOf_mwith_ne ht]
            exact hbase
        · rw [joinColumnSchema_id] at hI
          simp only [Except.ok.injEq] at hI
          exact hI.symm
        · rw [hNu, joinColumnSchema_nullable]
        · intro h1 h2
          rw [joinColumnSchema_generated_plain targetCol.schema flags.nullable h1 h2] at hG
          simp only [Except.ok.injEq] at hG
          exact hG.symm

/-- C6 witness: the concrete relation column of "p" synthesizes the join
column c_id on the owning table with the id flag cleared; the synthesized
column is nullable (and generated) because the child id schema is
optional and uses the 'gen' alias. -/
theorem C6_join_column_witness :
    mtableHasColumn (mtableOf mPreParent 0)
      ((none : Option String).getD ((mtableOf mPreParent 1).name ++ "_" ++ childIdCol.name)) = false ∧
    ∃ newCol,
      mkMCol 0 ((none : Option String).getD ((mtableOf mPreParent 1).name ++ "_" ++ childIdCol.name))
        (joinColumnSchema childIdCol.schema relFlags.nullable) false = .ok newCol ∧
      (mtableOf mPostParent 0).baseColumns =
        (mtableOf mPreParent 0).baseColumns ++ [newCol] ∧
      newCol.name =
        ((none : Option String).getD ((mtableOf mPreParent 1).name ++ "_" ++ childIdCol.name)) ∧
      newCol.declared = false ∧
      newCol.id = false ∧
      newCol.nullable = (detectNullableP childIdCol.schema || relFlags.nullable) ∧
      (childIdCol.schema.readAttr "generate" = none →
        childIdCol.schema.readAttr "gen" = none →
        newCol.generated = false) := by
  refine ⟨rfl, ?_⟩
  exact (C6_join_column mPreParent 0 "rel" childSchema 1 relFlags Owner.source
    childIdCol none mPostParent rfl rfl rfl rfl (by decide) rfl).2 rfl

/-- C6 counterexample: deriving the parent description synthesizes the
join column c_id as nullable even though the relation field "rel" is
not optional/nullable (the nullability and 'gen' generation come from
the child id column's schema), contradicting "marked not nullable unless
the relation itself is optional/nullable, and with id/generated flags
cleared". -/
theorem C6_counterexample :
    (mget 10 MReg.empty parentSchema).map (fun p =>
      ((mtableOf p.2 0).baseColumns.map (fun c => (c.name, c.id, c.generated, c.nullable)),
       (mtableOf p.2 0).relationColumns.map (fun c => (c.name, c.nullable)))) =
      .ok ([("id", true, false, false), ("c_id", false, true, true)], [("rel", false)]) := rfl

/-- C9: the bidirectional map used for the identity map keeps its forward
and reverse maps exact inverses after any sequence of operations: for all
keys k and values v, getByKey k = some v iff getByValue v = some k
(setByKey/setByValue first remove any existing binding of both the key
and the value, so no stale pairing survives an overwrite). -/
theorem C9_bimap_inverse [DecidableEq K] [DecidableEq V]
    (ops : List (BMOp K V)) (k : K) (v : V) :
    BiMap.getByKey (BMOp.applyAll ops) k = some v ↔
      BiMap.getByValue (BMOp.applyAll ops) v = some k :=
  BiMap.inv_foldl BiMap.inv_empty ops k v

/-! ### Interpreter step invariants: trace growth, identity-map
bijectivity and purity, by one induction over the interpreter. -/

theorem worldStep_rfl (w : World) (b : Bool) : WorldStep w w b :=
  ⟨⟨[], (List.append_nil _).symm⟩, id, fun _ => ⟨rfl, rfl⟩⟩

theorem worldStep_trans {w1 w2 w3 : World} {b : Bool}
    (h1 : WorldStep w1 w2 b) (h2 : WorldStep w2 w3 b) : WorldStep w1 w3 b := by
  obtain ⟨⟨ts1, ht1⟩, hr1, hp1⟩ := h1
  obtain ⟨⟨ts2, ht2⟩, hr2, hp2⟩ := h2
  refine ⟨⟨ts1 ++ ts2, ?_⟩, fun h => hr2 (hr1 h), fun hb => ?_⟩
  · rw [ht2, ht1, List.append_assoc]
  · obtain ⟨hd1, htr1⟩ := hp1 hb
    obtain ⟨hd2, htr2⟩ := hp2 hb
    exact ⟨hd2.trans hd1, htr2.trans htr1⟩

theorem worldStep_weaken {w1 w2 : World} {b : Bool} (h : WorldStep w1 w2 b) :
    WorldStep w1 w2 false :=
  ⟨h.1, h.2.1, fun hb => Bool.noConfusion hb⟩

theorem worldStep_regOnly {r : Reg} (w : World) (b : Bool)
    (hr : RegInv w.reg → RegInv r) : WorldStep w { w with reg := r } b :=
  ⟨⟨[], (List.append_nil _).symm⟩, hr, fun _ => ⟨rfl, rfl⟩⟩

theorem worldStep_emit (w : World) (db' : DB) (ts : List Stmt) :
    WorldStep w { w with db := db', trace := w.trace ++ ts } false :=
  ⟨⟨ts, rfl⟩, id, fun hb => Bool.noConfusion hb⟩

theorem mapIdOf_withEntry (r : Reg) (e : Nat) (f : Entry → Entry) (t : Nat) :
    mapIdOf (withEntry r e f) t = mapIdOf r t := by
  unfold withEntry
  cases r.arena.get? e <;> rfl

theorem regInv_withEntry {r : Reg} (hr : RegInv r) (e : Nat) (f : Entry → Entry) :
    RegInv (withEntry r e f) := fun t => by
  rw [mapIdOf_withEntry]
  exact hr t

theorem worldStep_clean (w : World) (e : Nat) (b : Bool) :
    WorldStep w (cleanEntry w e) b :=
  ⟨⟨[], (List.append_nil _).symm⟩, fun hr => regInv_withEntry hr _ _,
    fun _ => ⟨rfl, rfl⟩⟩

theorem mapIdOf_setMapId_self (r : Reg) (t : Nat) (m : BiMap Val Nat) :
    mapIdOf (setMapId r t m) t = m := by
  unfold mapIdOf setMapId
  simp [JsMap.get_setK_self]

theorem mapIdOf_setMapId_ne (r : Reg) {t t' : Nat} (m : BiMap Val Nat)
    (h : t' ≠ t) : mapIdOf (setMapId r t m) t' = mapIdOf r t' := by
  unfold mapIdOf setMapId
  rw [JsMap.get_setK_ne h]

theorem regInv_setMapId {r : Reg} {m : BiMap Val Nat} (hr : RegInv r) (t : Nat)
    (hm : BiMap.Inv m) : RegInv (setMapId r t m) := by
  intro t'
  by_cases ht : t' = t
  · subst ht
    rw [mapIdOf_setMapId_self]
    exact hm
  · rw [mapIdOf_setMapId_ne _ _ ht]
    exact hr t'

/-- `registerId` preserves the identity-map invariant: it only ever
installs a fresh binding through `setByKey` or removes the entry's
binding through `deleteByValue`. -/
theorem regInv_registerId {r r' : Reg} (hr : RegInv r) {e : Nat}
    (h : registerId r e = .ok r') : RegInv r' := by
  unfold registerId at h
  cases ha : r.arena.get? e with
  | none =>
    simp only [ha] at h
    exact Except.noConfusion h
  | some ent =>
    simp only [ha] at h
    cases hiv : ent.idValue with
    | none =>
      simp only [hiv] at h
      injection h with h
      subst h
      exact regInv_setMapId hr _ (BiMap.inv_deleteByValue (hr _) _)
    | some k =>
      simp only [hiv] at h
      cases hk : (mapIdOf r ent.table).getByKey k with
      | none =>
        simp only [hk] at h
        injection h with h
        subst h
        exact regInv_setMapId hr _ (BiMap.inv_setByKey (hr _) _ _)
      | some old =>
        simp only [hk] at h
        by_cases ho : old ≠ e
        · rw [if_pos ho] at h
          exact Except.noConfusion h
        · rw [if_neg ho] at h
          injection h with h
          subst h
          exact regInv_setMapId hr _ (BiMap.inv_setByKey (hr _) _ _)

/-- `EntryRegistry.create` only appends to the arena, so the identity
maps are untouched. -/
theorem regInv_createE {env : Env} {r : Reg} {t e : Nat} {r' : Reg}
    (hr : RegInv r) (h : createE env r t = .ok (e, r')) : RegInv r' := by
  unfold createE at h
  cases hm : mkEntry env t with
  | error er =>
    simp only [hm] at h
    exact Except.noConfusion h
  | ok ent =>
    simp only [hm] at h
    injection h with h
    have h2 : r' = { r with arena := r.arena ++ [ent] } :=
      (congrArg Prod.snd h).symm
    subst h2
    exact hr

theorem ok_inj {w1 w2 : World} {r1 r2 : Res}
    (h : (Except.ok (w1, r1) : Except Err (World × Res)) = .ok (w2, r2)) :
    w1 = w2 ∧ r1 = r2 := by
  injection h with h
  exact ⟨congrArg Prod.fst h, congrArg Prod.snd h⟩

/-- Master invariant of the interpreter: every successful step only
appends to the statement trace, preserves bijectivity of every per-table
identity map, and — when the job is not a flush phase — leaves the store
and the trace untouched. -/
theorem run_step : ∀ (n : Nat) (env : Env) (w : World) (job : Job)
    (w' : World) (res : Res), run n env w job = .ok (w', res) →
    WorldStep w w' job.isPure := by
  intro n
  induction n with
  | zero =>
    intro env w job w' res h
    simp only [run] at h
    exact Except.noConfusion h
  | succ n ih =>
    intro env w job w' res h
    cases job with
    | setJ e nm v =>
      simp only [run] at h
      cases ha : w.reg.arena.get? e with
      | none =>
        simp only [ha] at h
        obtain ⟨rfl, rfl⟩ := ok_inj h
        exact worldStep_rfl w _
      | some ent =>
        simp only [ha] at h
        cases hf : ent.findProp nm with
        | none =>
          simp only [hf] at h
          obtain ⟨rfl, rfl⟩ := ok_inj h
          exact worldStep_rfl w _
        | some pr =>
          simp only [hf] at h
          cases pr with
          | base i =>
            cases hd : (ent.base.getD i default).data with
            | single old =>
              simp only [hd] at h
              cases hid : (ent.base.getD i default).col.isId with
              | false =>
                simp only [hid, Bool.false_eq_true, if_false] at h
                obtain ⟨rfl, rfl⟩ := ok_inj h
                exact worldStep_regOnly w _ (fun hr => regInv_withEntry hr _ _)
              | true =>
                simp only [hid, eq_self_iff_true, if_true] at h
                split at h
                · rename_i r2 hreg
                  obtain ⟨rfl, rfl⟩ := ok_inj h
                  exact worldStep_regOnly w _
                    (fun hr => regInv_registerId (regInv_withEntry hr _ _) hreg)
                · exact Except.noConfusion h
            | multi old =>
              simp only [hd] at h
              obtain ⟨rfl, rfl⟩ := ok_inj h
              exact worldStep_regOnly w _ (fun hr => regInv_withEntry hr _ _)
          | rel j =>
            cases hd : (ent.rels.getD j default).data with
            | singleR d0 =>
              simp only [hd] at h
              split at h
              · exact Except.noConfusion h
              · rename_i w1 res1 hb1
                have s1 := ih _ _ _ _ _ hb1
                split at h
                · obtain ⟨rfl, rfl⟩ := ok_inj h
                  exact s1
                · split at h
                  · exact Except.noConfusion h
                  · rename_i w3 res3 hb3
                    have s3 := ih _ _ _ _ _ hb3
                    have s4 := ih _ _ _ _ _ h
                    exact worldStep_trans s1 (worldStep_trans
                      (worldStep_regOnly w1 _ (fun hr => regInv_withEntry hr _ _))
                      (worldStep_trans s3 (worldStep_trans
                        (worldStep_regOnly w3 _ (fun hr => regInv_withEntry hr _ _))
                        s4)))
            | multiR d0 =>
              simp only [hd] at h
              split at h
              · exact Except.noConfusion h
              · rename_i w1 res1 hb1
                have s1 := ih _ _ _ _ _ hb1
                split at h
                · exact Except.noConfusion h
                · rename_i w2 res2 hb2
                  have s2 := ih _ _ _ _ _ hb2
                  have s3 := ih _ _ _ _ _ h
                  exact worldStep_trans s1 (worldStep_trans s2 (worldStep_trans
                    (worldStep_regOnly w2 _ (fun hr => regInv_withEntry hr _ _))
                    s3))
    | instJ t v =>
      simp only [run] at h
      cases v with
      | none =>
        simp only at h
        obtain ⟨rfl, rfl⟩ := ok_inj h
        exact worldStep_rfl w _
      | some fields =>
        simp only at h
        cases hidn : tableIdName env t with
        | none =>
          simp only [hidn] at h
          exact Except.noConfusion h
        | some idn =>
          simp only [hidn] at h
          cases hfi : findById w.reg t ((JsMap.get fields idn).bind Raw.asSingleValue) with
          | some e0 =>
            simp only [hfi] at h
            split at h
            · exact Except.noConfusion h
            · rename_i w1 res1 hb1
              obtain ⟨rfl, rfl⟩ := ok_inj h
              have s0 := ih _ _ _ _ _ hb1
              exact s0
          | none =>
            simp only [hfi] at h
            split at h
            · exact Except.noConfusion h
            · rename_i e0 r1 hc
              split at h
              · exact Except.noConfusion h
              · rename_i w1 res1 hb1
                obtain ⟨rfl, rfl⟩ := ok_inj h
                have s1 := ih _ _ _ _ _ hb1
                exact worldStep_trans
                  (worldStep_regOnly w _ (fun hr => regInv_createE hr hc))
                  s1
    | instListJ t vs =>
      simp only [run] at h
      cases vs with
      | none =>
        simp only at h
        obtain ⟨rfl, rfl⟩ := ok_inj h
        exact worldStep_rfl w _
      | some items =>
        cases items with
        | nil =>
          simp only at h
          obtain ⟨rfl, rfl⟩ := ok_inj h
          exact worldStep_rfl w _
        | cons item rest =>
          simp only at h
          split at h
          · exact Except.noConfusion h
          · rename_i w1 res1 hb1
            split at h
            · exact Except.noConfusion h
            · rename_i w2 res2 hb2
              obtain ⟨rfl, rfl⟩ := ok_inj h
              have s1 := ih _ _ _ _ _ hb1
              have s2 := ih _ _ _ _ _ hb2
              exact worldStep_trans s1 s2
    | assignJ e names fields =>
      simp only [run] at h
      cases names with
      | nil =>
        simp only at h
        obtain ⟨rfl, rfl⟩ := ok_inj h
        exact worldStep_rfl w _
      | cons nm rest =>
        simp only at h
        cases hg : JsMap.get fields nm with
        | some fv =>
          simp only [hg] at h
          split at h
          · exact Except.noConfusion h
          · rename_i w1 res1 hb1
            have s1 := ih _ _ _ _ _ hb1
            have s2 := ih _ _ _ _ _ h
            exact worldStep_trans s1 s2
        | none =>
          simp only [hg] at h
          have s0 := ih _ _ _ _ _ h
          exact s0
    | bindJ e j =>
      simp only [run] at h
      cases ha : w.reg.arena.get? e with
      | none =>
        simp only [ha] at h
        obtain ⟨rfl, rfl⟩ := ok_inj h
        exact worldStep_rfl w _
      | some ent =>
        simp only [ha] at h
        cases hd : (ent.rels.getD j default).data with
        | singleR d =>
          simp only [hd] at h
          cases ho : (ent.rels.getD j default).col.owner with
          | source =>
            simp only [ho] at h
            cases hs : (ent.findProp (ent.rels.getD j default).col.sourceColumn).isSome with
            | true =>
              simp only [hs, if_true] at h
              have s0 := ih _ _ _ _ _ h
              exact s0
            | false =>
              simp only [hs, Bool.false_eq_true, if_false] at h
              obtain ⟨rfl, rfl⟩ := ok_inj h
              exact worldStep_rfl w _
          | foreign =>
            simp only [ho] at h
            cases d with
            | some fe =>
              simp only at h
              cases hs : (entryFindPropAt w.reg fe (ent.rels.getD j default).col.foreignColumn).isSome with
              | true =>
                simp only [hs, if_true] at h
                have s0 := ih _ _ _ _ _ h
                exact s0
              | false =>
                simp only [hs, Bool.false_eq_true, if_false] at h
                obtain ⟨rfl, rfl⟩ := ok_inj h
                exact worldStep_rfl w _
            | none =>
              simp only at h
              obtain ⟨rfl, rfl⟩ := ok_inj h
              exact worldStep_rfl w _
        | multiR d =>
          simp only [hd] at h
          cases ho : (ent.rels.getD j default).col.owner with
          | source =>
            simp only [ho] at h
            cases hs : (ent.findProp (ent.rels.getD j default).col.sourceColumn).isSome with
            | true =>
              simp only [hs, if_true] at h
              have s0 := ih _ _ _ _ _ h
              exact s0
            | false =>
              simp only [hs, Bool.false_eq_true, if_false] at h
              obtain ⟨rfl, rfl⟩ := ok_inj h
              exact worldStep_rfl w _
          | foreign =>
            simp only [ho] at h
            have s0 := ih _ _ _ _ _ h
            exact s0
    | unbindJ e j =>
      simp only [run] at h
      cases ha : w.reg.arena.get? e with
      | none =>
        simp only [ha] at h
        obtain ⟨rfl, rfl⟩ := ok_inj h
        exact worldStep_rfl w _
      | some ent =>
        simp only [ha] at h
        cases hd : (ent.rels.getD j default).data with
        | singleR d =>
          simp only [hd] at h
          cases ho : (ent.rels.getD j default).col.owner with
          | source =>
            simp only [ho] at h
            cases hs : (ent.findProp (ent.rels.getD j default).col.sourceColumn).isSome with
            | true =>
              simp only [hs, if_true] at h
              have s0 := ih _ _ _ _ _ h
              exact s0
            | false =>
              simp only [hs, Bool.false_eq_true, if_false] at h
              obtain ⟨rfl, rfl⟩ := ok_inj h
              exact worldStep_rfl w _
          | foreign =>
            simp only [ho] at h
            cases d with
            | some fe =>
              simp only at h
              cases hs : (entryFindPropAt w.reg fe (ent.rels.getD j default).col.foreignColumn).isSome with
              | true =>
                simp only [hs, if_true] at h
                have s0 := ih _ _ _ _ _ h
                exact s0
              | false =>
                simp only [hs, Bool.false_eq_true, if_false] at h
                obtain ⟨rfl, rfl⟩ := ok_inj h
                exact worldStep_rfl w _
            | none =>
              simp only at h
              obtain ⟨rfl, rfl⟩ := ok_inj h
              exact worldStep_rfl w _
        | multiR d =>
          simp only [hd] at h
          cases ho : (ent.rels.getD j default).col.owner with
          | source =>
            simp only [ho] at h
            cases hs : (ent.findProp (ent.rels.getD j default).col.sourceColumn).isSome with
            | true =>
              simp only [hs, if_true] at h
              have s0 := ih _ _ _ _ _ h
              exact s0
            | false =>
              simp only [hs, Bool.false_eq_true, if_false] at h
              obtain ⟨rfl, rfl⟩ := ok_inj h
              exact worldStep_rfl w _
          | foreign =>
            simp only [ho] at h
            have s0 := ih _ _ _ _ _ h
            exact s0
    | bindMultiSrcJ e src fc items =>
      simp only [run] at h
      cases items with
      | nil =>
        simp only at h
        obtain ⟨rfl, rfl⟩ := ok_inj h
        exact worldStep_rfl w _
      | cons item rest =>
        simp only at h
        split at h
        · exact Except.noConfusion h
        · rename_i w1 res1 hb1
          have s1 := ih _ _ _ _ _ hb1
          have s2 := ih _ _ _ _ _ h
          exact worldStep_trans s1 s2
    | bindMultiForeignJ e src fc items =>
      simp only [run] at h
      cases items with
      | nil =>
        simp only at h
        obtain ⟨rfl, rfl⟩ := ok_inj h
        exact worldStep_rfl w _
      | cons item rest =>
        simp only at h
        cases item with
        | some fe =>
          simp only at h
          cases hs : (entryFindPropAt w.reg fe fc).isSome with
          | true =>
            simp only [hs, if_true] at h
            split at h
            · exact Except.noConfusion h
            · rename_i w1 res1 hb1
              have s1 := ih _ _ _ _ _ hb1
              have s2 := ih _ _ _ _ _ h
              exact worldStep_trans s1 s2
          | false =>
            simp only [hs, Bool.false_eq_true, if_false] at h
            have s0 := ih _ _ _ _ _ h
            exact s0
        | none =>
          simp only at h
          have s0 := ih _ _ _ _ _ h
          exact s0
    | unbindMultiForeignJ e fc items =>
      simp only [run] at h
      cases items with
      | nil =>
        simp only at h
        obtain ⟨rfl, rfl⟩ := ok_inj h
        exact worldStep_rfl w _
      | cons item rest =>
        simp only at h
        cases item with
        | some fe =>
          simp only at h
          cases hs : (entryFindPropAt w.reg fe fc).isSome with
          | true =>
            simp only [hs, if_true] at h
            split at h
            · exact Except.noConfusion h
            · rename_i w1 res1 hb1
              have s1 := ih _ _ _ _ _ hb1
              have s2 := ih _ _ _ _ _ h
              exact worldStep_trans s1 s2
          | false =>
            simp only [hs, Bool.false_eq_true, if_false] at h
            have s0 := ih _ _ _ _ _ h
            exact s0
        | none =>
          simp only at h
          have s0 := ih _ _ _ _ _ h
          exact s0
    | bindListJ e js =>
      simp only [run] at h
      cases js with
      | nil =>
        simp only at h
        obtain ⟨rfl, rfl⟩ := ok_inj h
        exact worldStep_rfl w _
      | cons j rest =>
        simp only at h
        split at h
        · exact Except.noConfusion h
        · rename_i w1 res1 hb1
          have s1 := ih _ _ _ _ _ hb1
          have s2 := ih _ _ _ _ _ h
          exact worldStep_trans s1 s2
    | unbindListJ e js =>
      simp only [run] at h
      cases js with
      | nil =>
        simp only at h
        obtain ⟨rfl, rfl⟩ := ok_inj h
        exact worldStep_rfl w _
      | cons j rest =>
        simp only at h
        split at h
        · exact Except.noConfusion h
        · rename_i w1 res1 hb1
          have s1 := ih _ _ _ _ _ hb1
          have s2 := ih _ _ _ _ _ h
          exact worldStep_trans s1 s2
    | assignRowsJ e rows =>
      simp only [run] at h
      cases rows with
      | nil =>
        simp only at h
        obtain ⟨rfl, rfl⟩ := ok_inj h
        exact worldStep_rfl w _
      | cons row rest =>
        simp only at h
        cases ht : (w.reg.arena.get? e).map Entry.table with
        | none =>
          simp only [ht] at h
          obtain ⟨rfl, rfl⟩ := ok_inj h
          exact worldStep_rfl w _
        | some t =>
          simp only [ht] at h
          split at h
          · exact Except.noConfusion h
          · rename_i w1 res1 hb1
            have s1 := ih _ _ _ _ _ hb1
            have s2 := ih _ _ _ _ _ h
            exact worldStep_trans s1 s2
    | flushBaseJ e =>
      simp only [run] at h
      cases ha : w.reg.arena.get? e with
      | none =>
        simp only [ha] at h
        obtain ⟨rfl, rfl⟩ := ok_inj h
        exact worldStep_rfl w _
      | some ent =>
        simp only [ha] at h
        cases hc : (flushChanges ent).isEmpty with
        | true =>
          simp only [hc, if_true] at h
          obtain ⟨rfl, rfl⟩ := ok_inj h
          exact worldStep_rfl w _
        | false =>
          simp only [hc, Bool.false_eq_true, if_false] at h
          cases hiv : ent.idValue with
          | some k =>
            simp only [hiv] at h
            cases hidn : tableIdName env ent.table with
            | none =>
              simp only [hidn] at h
              exact Except.noConfusion h
            | some idn =>
              simp only [hidn] at h
              split at h
              · exact Except.noConfusion h
              · rename_i w2 res2 hb2
                obtain ⟨rfl, rfl⟩ := ok_inj h
                have s2 := ih _ _ _ _ _ hb2
                exact worldStep_trans (worldStep_emit w _ _)
                  (worldStep_trans (worldStep_weaken s2)
                    (worldStep_clean w2 e _))
          | none =>
            simp only [hiv] at h
            split at h
            · exact Except.noConfusion h
            · rename_i w2 res2 hb2
              obtain ⟨rfl, rfl⟩ := ok_inj h
              have s2 := ih _ _ _ _ _ hb2
              exact worldStep_trans (worldStep_emit w _ _)
                (worldStep_trans (worldStep_weaken s2)
                  (worldStep_clean w2 e _))
    | flushJ e =>
      simp only [run] at h
      cases ha : w.reg.arena.get? e with
      | none =>
        simp only [ha] at h
        obtain ⟨rfl, rfl⟩ := ok_inj h
        exact worldStep_rfl w _
      | some ent =>
        simp only [ha] at h
        split at h
        · exact Except.noConfusion h
        · rename_i w1 res1 hb1
          split at h
          · exact Except.noConfusion h
          · rename_i w2 res2 hb2
            split at h
            · exact Except.noConfusion h
            · rename_i w3 res3 hb3
              split at h
              · exact Except.noConfusion h
              · rename_i w4 res4 hb4
                have s1 := ih _ _ _ _ _ hb1
                have s2 := ih _ _ _ _ _ hb2
                have s3 := ih _ _ _ _ _ hb3
                have s4 := ih _ _ _ _ _ hb4
                have s5 := ih _ _ _ _ _ h
                exact worldStep_trans s1
                  (worldStep_trans (worldStep_weaken s2)
                    (worldStep_trans s3
                      (worldStep_trans (worldStep_weaken s4) s5)))
    | flushListJ es =>
      simp only [run] at h
      cases es with
      | nil =>
        simp only at h
        obtain ⟨rfl, rfl⟩ := ok_inj h
        exact worldStep_rfl w _
      | cons f rest =>
        simp only at h
        split at h
        · exact Except.noConfusion h
        · rename_i w1 res1 hb1
          have s1 := ih _ _ _ _ _ hb1
          have s2 := ih _ _ _ _ _ h
          exact worldStep_trans s1 s2

/-! ### C10: QueryInsert clears the id before flushing -/

theorem idxOf?_set_preserve {p : α → Bool} {d : α} :
    ∀ (l : List α) (i : Nat) (a : α), i < l.length →
      p a = p (l.getD i d) → idxOf? p (l.set i a) = idxOf? p l := by
  intro l
  induction l with
  | nil =>
    intro i a hi _
    exact absurd hi (by simp)
  | cons x xs ihl =>
    intro i a hi hp
    cases i with
    | zero =>
      simp only [List.set]
      simp only [List.getD_cons_zero] at hp
      simp only [idxOf?, hp]
    | succ i2 =>
      simp only [List.set]
      simp only [List.getD_cons_succ] at hp
      simp only [idxOf?]
      rw [ihl i2 a (by simp only [List.length_cons] at hi; omega) hp]

/-- Overwriting a base property with one of the same column flags does
not move `Entry.id` (part_008:109-113 scans only the column metadata). -/
theorem idRef_setBaseProp {ent : Entry} {i : Nat} {p1 : BProp}
    (hi : i < ent.base.length)
    (hc : p1.col.isId = (ent.base.getD i default).col.isId) :
    (setBaseProp i p1 ent).idRef = ent.idRef := by
  unfold Entry.idRef setBaseProp
  simp only
  rw [idxOf?_set_preserve ent.base i p1 hi hc]

theorem idValue_setBaseProp_single {ent : Entry} {i : Nat} {p1 : BProp}
    {nv : Option Val} (hi : i < ent.base.length)
    (hc : p1.col.isId = (ent.base.getD i default).col.isId)
    (href : ent.idRef = some (.base i))
    (hd : p1.data = .single nv) :
    (setBaseProp i p1 ent).idValue = nv := by
  have h1 : (setBaseProp i p1 ent).idRef = some (.base i) := by
    rw [idRef_setBaseProp hi hc, href]
  have h2 : (setBaseProp i p1 ent).base.getD i default = p1 := by
    show (ent.base.set i p1).getD i default = p1
    rw [getD_eq_get?, get?_set_self hi]
    rfl
  unfold Entry.idValue
  simp only [h1, h2, hd]

theorem get?_withEntry_self {r : Reg} {e : Nat} {ent : Entry}
    (f : Entry → Entry) (ha : r.arena.get? e = some ent) :
    (withEntry r e f).arena.get? e = some (f ent) := by
  unfold withEntry
  rw [ha]
  simp only
  rw [get?_set_self (List.get?_eq_some.mp ha).1]

theorem arena_setMapId (r : Reg) (t : Nat) (m : BiMap Val Nat) :
    (setMapId r t m).arena = r.arena := rfl

/-- `registerId` on an entry whose id value is unset always succeeds and
only unbinds the entry from its table's identity map (part_008:67-70). -/
theorem registerId_of_idValue_none {r : Reg} {e : Nat} {u : Entry}
    (ha : r.arena.get? e = some u) (hiv : u.idValue = none) :
    registerId r e =
      .ok (setMapId r u.table ((mapIdOf r u.table).deleteByValue e)) := by
  unfold registerId
  simp only [ha, hiv]

/-- C10: `QueryInsert.run` clears the primary-key value of the newly
created entry before flushing — after the `entry.id.value = undefined`
step the entry's id value is unset while the store and the trace are
untouched; `flushBase` on a dirty entry without an id value takes the
insert branch and appends exactly one INSERT statement, never an UPDATE;
concretely, an insert whose input carries the id "7" of an existing row
leaves that row unchanged and issues a single INSERT that receives the
freshly generated id "8". -/
theorem C10_insert_clears_id (n : Nat) (env : Env) (w : World) (e : Nat)
    (ent : Entry) (i : Nat) (old : Option Val) (idn : String)
    (ha : w.reg.arena.get? e = some ent)
    (hf : ent.findProp idn = some (.base i))
    (hd : (ent.base.getD i default).data = .single old)
    (hid : (ent.base.getD i default).col.isId = true)
    (href : ent.idRef = some (.base i))
    (hi : i < ent.base.length) :
    (∃ w', run (n + 1) env w (.setJ e idn Raw.undef) = .ok (w', .unit) ∧
       (w'.reg.arena.get? e).map Entry.idValue = some none ∧
       w'.db = w.db ∧ w'.trace = w.trace) ∧
    (∀ (ent2 : Entry) (w2 w3 : World) (res : Res),
       w2.reg.arena.get? e = some ent2 → ent2.idValue = none →
       (flushChanges ent2).isEmpty = false →
       run (n + 1) env w2 (.flushBaseJ e) = .ok (w3, res) →
       w3.trace = w2.trace ++ [.insertS ent2.table (flushChanges ent2)]) ∧
    (insertRun 20 envSimple wExisting 0 insertCarryingId).map
        (fun wf => (wf.trace, wf.db)) =
      .ok ([.insertS 0 [("key", .v (some "new"))]],
        [(0, ⟨[[("id", .v (some "7")), ("key", .v (some "old"))],
               [("id", .v (some "8")), ("key", .v (some "new"))]], 9⟩)]) := by
  refine ⟨?_, ?_, rfl⟩
  · have hrun := @run_set_single_id n env w e idn Raw.undef ent i old ha hf hd hid
    have hu := get?_withEntry_self
      (setBaseProp i ((ent.base.getD i default).withSingle Raw.undef.asSingleValue
        ((ent.base.getD i default).dirty ||
          decide (¬ old = Raw.undef.asSingleValue)))) ha
    have hiv : (setBaseProp i
        ((ent.base.getD i default).withSingle Raw.undef.asSingleValue
          ((ent.base.getD i default).dirty ||
            decide (¬ old = Raw.undef.asSingleValue))) ent).idValue = none :=
      idValue_setBaseProp_single hi rfl href rfl
    have hreg := registerId_of_idValue_none hu hiv
    simp only [hreg] at hrun
    refine ⟨_, hrun, ?_, rfl, rfl⟩
    simp only [arena_setMapId, hu, Option.map_some']
    rw [hiv]
  · intro ent2 w2 w3 res ha2 hiv2 hne hrun
    simp only [run, ha2, hiv2, hne, Bool.false_eq_true, if_false] at hrun
    split at hrun
    · exact Except.noConfusion hrun
    · rename_i w4 res4 hb4
      obtain ⟨h3, _⟩ := ok_inj hrun
      subst h3
      have hp := (run_step _ _ _ _ _ _ hb4).2.2 rfl
      exact hp.2

theorem C10_insert_clears_id_witness :
    (∃ w', run 4 envSimple wFive (.setJ 0 "id" Raw.undef) = .ok (w', .unit) ∧
       (w'.reg.arena.get? 0).map Entry.idValue = some none ∧
       w'.db = wFive.db ∧ w'.trace = wFive.trace) ∧
    (insertRun 20 envSimple wExisting 0 insertCarryingId).map
        (fun wf => (wf.trace, wf.db)) =
      .ok ([.insertS 0 [("key", .v (some "new"))]],
        [(0, ⟨[[("id", .v (some "7")), ("key", .v (some "old"))],
               [("id", .v (some "8")), ("key", .v (some "new"))]], 9⟩)]) :=
  ⟨(C10_insert_clears_id 3 envSimple wFive 0 entFive 0 (some "5") "id"
      rfl rfl rfl rfl rfl (by decide)).1,
   (C10_insert_clears_id 3 envSimple wFive 0 entFive 0 (some "5") "id"
      rfl rfl rfl rfl rfl (by decide)).2.2⟩

/-! ### C1: commit phase order -/

/-- C1: the commit phases of `flush` (query.ts:855-876, part_003:443-464)
run in the order: flush THIS table's base row first, then bind join
columns, then flush every entry of every relation table regardless of
ownership, then bind again, then flush this table's base row again — the
owning table is not preceded by its source-owned relation tables.
Consequently, for a one-to-one relation with owner = source, inserting a
parent with a nested new child inserts the PARENT row first, then the
child, and back-fills the parent's join column with a trailing UPDATE;
the parent's join column still equals the child's generated id after
commit. -/
theorem C1_flush_order (n : Nat) (env : Env) (w : World) (e : Nat)
    (ent : Entry) (w' : World) (res : Res)
    (ha : w.reg.arena.get? e = some ent)
    (h : run (n + 1) env w (.flushJ e) = .ok (w', res)) :
    (∃ w1 w2 w3 w4 r1 r2 r3 r4,
       run n env w (.flushBaseJ e) = .ok (w1, r1) ∧
       run n env w1 (.bindListJ e (List.range ent.rels.length)) = .ok (w2, r2) ∧
       run n env w2 (.flushListJ (((tableOf env ent.table).relationColumns.map
         (fun c => findAll w2.reg c.foreignTable)).flatten)) = .ok (w3, r3) ∧
       run n env w3 (.bindListJ e (List.range ent.rels.length)) = .ok (w4, r4) ∧
       run n env w4 (.flushBaseJ e) = .ok (w', res)) ∧
    (insertRun 20 envPC wCounters 0 parentFields).map (fun wf =>
        (wf.trace, (dbTable wf.db 0).rows, (dbTable wf.db 1).rows)) =
      .ok ([.insertS 0 [("key", .v (some "k1"))],
            .insertS 1 [("key", .v (some "ck"))],
            .updateS 0 "id" (.v (some "1")) [("c_id", .v (some "5"))]],
           [[("id", .v (some "1")), ("key", .v (some "k1")),
             ("c_id", .v (some "5"))]],
           [[("id", .v (some "5")), ("key", .v (some "ck"))]]) ∧
    (insertRun 20 envPC wCounters 0 parentFields).map (fun wf =>
        ((dbTable wf.db 0).rows.head?.bind (fun row => JsMap.get row "c_id"),
         (dbTable wf.db 1).rows.head?.bind (fun row => JsMap.get row "id"))) =
      .ok (some (.v (some "5")), some (.v (some "5"))) := by
  refine ⟨?_, rfl, rfl⟩
  simp only [run, ha] at h
  split at h
  · exact Except.noConfusion h
  · rename_i w1 r1 hb1
    split at h
    · exact Except.noConfusion h
    · rename_i w2 r2 hb2
      split at h
      · exact Except.noConfusion h
      · rename_i w3 r3 hb3
        split at h
        · exact Except.noConfusion h
        · rename_i w4 r4 hb4
          exact ⟨w1, w2, w3, w4, r1, r2, r3, r4, hb1, hb2, hb3, hb4, h⟩

theorem C1_flush_order_witness :
    (∃ w1 w2 w3 w4 r1 r2 r3 r4,
       run 19 envPC wBeforeFlushC (.flushBaseJ 0) = .ok (w1, r1) ∧
       run 19 envPC w1 (.bindListJ 0
         (List.range (wBeforeFlushC.reg.arena.getD 0 default).rels.length)) =
           .ok (w2, r2) ∧
       run 19 envPC w2 (.flushListJ (((tableOf envPC
           (wBeforeFlushC.reg.arena.getD 0 default).table).relationColumns.map
         (fun c => findAll w2.reg c.foreignTable)).flatten)) = .ok (w3, r3) ∧
       run 19 envPC w3 (.bindListJ 0
         (List.range (wBeforeFlushC.reg.arena.getD 0 default).rels.length)) =
           .ok (w4, r4) ∧
       run 19 envPC w4 (.flushBaseJ 0) = .ok (flushedC, .unit)) ∧
    (insertRun 20 envPC wCounters 0 parentFields).map (fun wf =>
        ((dbTable wf.db 0).rows.head?.bind (fun row => JsMap.get row "c_id"),
         (dbTable wf.db 1).rows.head?.bind (fun row => JsMap.get row "id"))) =
      .ok (some (.v (some "5")), some (.v (some "5"))) :=
  ⟨(C1_flush_order 19 envPC wBeforeFlushC 0
      (wBeforeFlushC.reg.arena.getD 0 default) flushedC .unit rfl rfl).1,
   (C1_flush_order 19 envPC wBeforeFlushC 0
      (wBeforeFlushC.reg.arena.getD 0 default) flushedC .unit rfl rfl).2.2⟩

/-- The spec's claimed child-first insertion order for owner = source is
refuted: in the trace of the parent insert, the first INSERT into the
parent table (index 0) precedes the first INSERT into the child table
(index 1). -/
theorem C1_counterexample :
    (insertRun 20 envPC wCounters 0 parentFields).map (fun wf =>
      (firstInsertIdx wf.trace 0, firstInsertIdx wf.trace 1)) =
      .ok (some 0, some 1) := rfl

/-! ### C3: findById identity and instantiate decomposition -/

theorem find?_append_first_match {p : α → Bool} :
    ∀ (l1 : List α) (a : α) (l2 : List α), (∀ x ∈ l1, p x = false) →
      p a = true → (l1 ++ a :: l2).find? p = some a := by
  intro l1
  induction l1 with
  | nil =>
    intro a l2 _ hp
    simpa using List.find?_cons_of_pos l2 hp
  | cons x xs ihl =>
    intro a l2 hall hp
    have hx : p x = false := hall x (by simp)
    rw [List.cons_append, List.find?_cons_of_neg _ (by simp [hx])]
    exact ihl a l2 (fun y hy => hall y (by simp [hy])) hp

/-- The entry handed back by the list-scan `findById` reads back the
requested id (entry.ts:26-29 sets the id on the newly created entry). -/
theorem findByIdA_idOf (r : RegA) (id : Option Val) :
    (findByIdA r id).2.idOf (findByIdA r id).1 = id := by
  unfold findByIdA
  cases hfind : r.list.find? (fun j => decide (r.idOf j = id)) with
  | some i =>
    simp only
    have hp := List.find?_some hfind
    simp only [decide_eq_true_eq] at hp
    exact hp
  | none =>
    simp only [RegA.idOf]
    rw [get?_set_self (by simp)]
    rfl

/-- After a missing id was created, the next scan finds exactly the new
entry (older entries still fail the id test, and the new entry was
pushed right behind them). -/
theorem findByIdA_miss (r : RegA) (id : Option Val)
    (hwf : ∀ j ∈ r.list, j < r.ids.length)
    (hfind : r.list.find? (fun j => decide (r.idOf j = id)) = none) :
    findByIdA ⟨(r.ids ++ [none]).set r.ids.length id,
               (r.list ++ [r.ids.length]) ++ [r.ids.length]⟩ id =
      (r.ids.length,
       ⟨(r.ids ++ [none]).set r.ids.length id,
        (r.list ++ [r.ids.length]) ++ [r.ids.length]⟩) := by
  have hidof : ∀ L : List Nat, RegA.idOf ⟨(r.ids ++ [none]).set r.ids.length id,
      L⟩ r.ids.length = id := by
    intro L
    unfold RegA.idOf
    simp only
    rw [get?_set_self (by simp)]
    rfl
  have hold : ∀ (L : List Nat), ∀ j ∈ r.list,
      RegA.idOf ⟨(r.ids ++ [none]).set r.ids.length id, L⟩ j = RegA.idOf r j := by
    intro L j hj
    have hjlt := hwf j hj
    unfold RegA.idOf
    simp only
    rw [get?_set_ne (by omega), List.get?_append hjlt]
  have hfind2 : ((r.list ++ [r.ids.length]) ++ [r.ids.length]).find?
      (fun j => decide (RegA.idOf ⟨(r.ids ++ [none]).set r.ids.length id,
        (r.list ++ [r.ids.length]) ++ [r.ids.length]⟩ j = id)) =
      some r.ids.length := by
    rw [show (r.list ++ [r.ids.length]) ++ [r.ids.length] =
      r.list ++ r.ids.length :: [r.ids.length] from by simp]
    refine find?_append_first_match r.list _ _ ?_ ?_
    · intro x hx
      have hne := List.find?_eq_none.mp hfind x hx
      rw [hold _ x hx]
      simpa using hne
    · rw [hidof]
      simp
  unfold findByIdA
  simp only
  rw [hfind2]

/-- A second list-scan `findById` with the same id finds the entry the
first call returned and leaves the registry untouched. -/
theorem findByIdA_stable (r : RegA) (id : Option Val)
    (hwf : ∀ j ∈ r.list, j < r.ids.length) :
    findByIdA (findByIdA r id).2 id = findByIdA r id := by
  cases hfind : r.list.find? (fun j => decide (r.idOf j = id)) with
  | some i =>
    have h1 : findByIdA r id = (i, r) := by
      unfold findByIdA
      rw [hfind]
    rw [h1]
    exact h1
  | none =>
    have h1 : findByIdA r id = (r.ids.length,
        ⟨(r.ids ++ [none]).set r.ids.length id,
         (r.list ++ [r.ids.length]) ++ [r.ids.length]⟩) := by
      unfold findByIdA
      rw [hfind]
    rw [h1]
    exact findByIdA_miss r id hwf hfind

/-- C3: the list-scan `findById` (entry.ts:20-30) returns the unique
entry for a key, creating and registering one on first reference: the
returned entry reads back the requested id, and a second call with the
same id within the registry returns the same entry without changing the
registry. `instantiate` (part_008:42-61) equals `findById` on the row's
id followed by bulk value assignment: on a hit it assigns onto the found
entry, on a miss it creates the entry first; repeated instantiation of
the same raw row within one scope returns the same entry and is
idempotent on the registry. -/
theorem C3_find_by_id (r : RegA) (id : Option Val)
    (hwf : ∀ j ∈ r.list, j < r.ids.length) :
    ((findByIdA r id).2.idOf (findByIdA r id).1 = id ∧
     findByIdA (findByIdA r id).2 id = findByIdA r id) ∧
    (∀ (n : Nat) (env : Env) (w : World) (t e : Nat)
       (fields : List (String × Raw)) (idn : String),
       tableIdName env t = some idn →
       (findById w.reg t ((JsMap.get fields idn).bind Raw.asSingleValue) =
           some e →
         run (n + 1) env w (.instJ t (some fields)) =
           (run n env w (.assignJ e (entryPropNames w.reg e) fields)).map
             (fun p => (p.1, Res.ent (some e)))) ∧
       (∀ r1, findById w.reg t ((JsMap.get fields idn).bind Raw.asSingleValue) =
           none →
         createE env w.reg t = .ok (e, r1) →
         run (n + 1) env w (.instJ t (some fields)) =
           (run n env { w with reg := r1 }
             (.assignJ e (entryPropNames r1 e) fields)).map
               (fun p => (p.1, Res.ent (some e))))) ∧
    (run 10 envSimple wEmpty (.instJ 0 (some fields5)) =
       .ok (wInst, .ent (some 0)) ∧
     run 10 envSimple wInst (.instJ 0 (some fields5)) =
       .ok (wInst, .ent (some 0))) := by
  refine ⟨⟨findByIdA_idOf r id, findByIdA_stable r id hwf⟩, ?_, rfl, rfl⟩
  intro n env w t e fields idn hidn
  constructor
  · intro hfi
    simp only [run, hidn, hfi]
    cases hb : run n env w (.assignJ e (entryPropNames w.reg e) fields) with
    | error er => simp [hb, Except.map]
    | ok p =>
      cases p with
      | mk w1 r1 => simp [hb, Except.map]
  · intro r1 hfi hc
    simp only [run, hidn, hfi, hc]
    cases hb : run n env { w with reg := r1 }
        (.assignJ e (entryPropNames r1 e) fields) with
    | error er => simp [hb, Except.map]
    | ok p =>
      cases p with
      | mk w1 res1 => simp [hb, Except.map]

theorem C3_find_by_id_witness :
    ((findByIdA ⟨[some "5"], [0]⟩ (some "9")).2.idOf
        (findByIdA ⟨[some "5"], [0]⟩ (some "9")).1 = some "9" ∧
     findByIdA (findByIdA ⟨[some "5"], [0]⟩ (some "9")).2 (some "9") =
       findByIdA ⟨[some "5"], [0]⟩ (some "9")) ∧
    (run 10 envSimple wEmpty (.instJ 0 (some fields5)) =
       .ok (wInst, .ent (some 0)) ∧
     run 10 envSimple wInst (.instJ 0 (some fields5)) =
       .ok (wInst, .ent (some 0))) :=
  ⟨(C3_find_by_id ⟨[some "5"], [0]⟩ (some "9") (by decide)).1,
   (C3_find_by_id ⟨[some "5"], [0]⟩ (some "9") (by decide)).2.2⟩

/-! ### C2: at most one entry per (table, id) -/

/-- C2: the per-table id↔entry BiMap rejects registering an entry whose
current id value is already bound to a DIFFERENT entry
(part_008:71-75); the exact-bijection invariant of every per-table
identity map holds of the empty registry and is preserved by every
successful interpreter step — every property setter (including the
re-registering id setter), instantiate, bind/unbind and flush — so at
most one entry per (table, primary-key value) is ever bound; concretely,
registering the second of two distinct in-memory entries that both read
id "5" fails with the conflict error. -/
theorem C2_identity_unique :
    (∀ (r : Reg) (e : Nat) (ent : Entry) (k : Val) (e0 : Nat),
       r.arena.get? e = some ent → ent.idValue = some k →
       (mapIdOf r ent.table).getByKey k = some e0 → e0 ≠ e →
       registerId r e = .error .registerConflict) ∧
    RegInv Reg.empty ∧
    (∀ (n : Nat) (env : Env) (w : World) (job : Job) (w' : World) (res : Res),
       run n env w job = .ok (w', res) → RegInv w.reg → RegInv w'.reg) ∧
    registerId regConflict 1 = .error .registerConflict := by
  refine ⟨?_, ?_, ?_, rfl⟩
  · intro r e ent k e0 ha hiv hk hne
    unfold registerId
    simp only [ha, hiv, hk]
    rw [if_pos hne]
  · exact fun _ => BiMap.inv_empty
  · intro n env w job w' res h hr
    exact (run_step n env w job w' res h).2.1 hr

/-! ### C4: removal cascade order (spec-modelled delete phases) -/

theorem trace_foldl_emitDelete3 (b : Bool) :
    ∀ (l : List (Nat × String × Val)) (w : World),
      (l.foldl (fun wa tc => emitDelete wa tc.1 tc.2.1 tc.2.2 b) w).trace =
        w.trace ++ l.map (fun tc =>
          Stmt.deleteS tc.1 tc.2.1 (.v (some tc.2.2)) b) := by
  intro l
  induction l with
  | nil =>
    intro w
    simp
  | cons tc rest ihl =>
    intro w
    rw [List.foldl_cons, ihl]
    simp [emitDelete, List.append_assoc]

theorem trace_foldl_emitDelete1 (t : Nat) (idn : String) :
    ∀ (l : List Val) (w : World),
      (l.foldl (fun wa k => emitDelete wa t idn k true) w).trace =
        w.trace ++ l.map (fun k => Stmt.deleteS t idn (.v (some k)) true) := by
  intro l
  induction l with
  | nil =>
    intro w
    simp
  | cons k rest ihl =>
    intro w
    rw [List.foldl_cons, ihl]
    simp [emitDelete, List.append_assoc]

/-- Unlinking relation properties issues no SQL and preserves the
identity-map invariant: it is a sequence of pure unbind jobs. -/
theorem unlinkAll_pure : ∀ (es : List Nat) (n : Nat) (env : Env)
    (w w' : World), unlinkAll n env w es = .ok w' →
    w'.db = w.db ∧ w'.trace = w.trace ∧ (RegInv w.reg → RegInv w'.reg) := by
  intro es
  induction es with
  | nil =>
    intro n env w w' h
    simp only [unlinkAll] at h
    injection h with h
    subst h
    exact ⟨rfl, rfl, id⟩
  | cons e rest ihl =>
    intro n env w w' h
    simp only [unlinkAll] at h
    cases hb : runW n env w (.unbindListJ e (List.range (relCountOf w.reg e))) with
    | error er =>
      simp only [hb] at h
      exact Except.noConfusion h
    | ok w1 =>
      simp only [hb] at h
      obtain ⟨hdb, htr, hinv⟩ := ihl n env w1 w' h
      unfold runW at hb
      cases hr : run n env w (.unbindListJ e (List.range (relCountOf w.reg e))) with
      | error er =>
        rw [hr] at hb
        exact Except.noConfusion hb
      | ok p =>
        rw [hr] at hb
        cases p with
        | mk wx rx =>
          simp only [Except.map] at hb
          injection hb with hb
          subst hb
          have hs := run_step n env w _ wx rx hr
          have hp := hs.2.2 rfl
          exact ⟨hdb.trans hp.1, htr.trans hp.2, fun h0 => hinv (hs.2.1 h0)⟩

theorem length_removeFirst (p : DBRow → Bool) :
    ∀ l : List DBRow, l.length ≤ (removeFirst p l).length + 1 := by
  intro l
  induction l with
  | nil => simp [removeFirst]
  | cons r rs ihl =>
    simp only [removeFirst]
    by_cases hp : p r = true
    · rw [if_pos hp]
      simp
    · rw [if_neg hp]
      simp only [List.length_cons]
      omega

/-- A LIMIT-1 delete removes at most one row from the targeted table. -/
theorem dbDelete_limitOne_length (db : DB) (t : Nat) (c : String) (x : CVal) :
    (dbTable db t).rows.length ≤
      (dbTable (dbDelete db t c x true) t).rows.length + 1 := by
  simp only [dbDelete]
  rw [dbTable_dbSet_self]
  simp only [eq_self_iff_true, if_true]
  exact length_removeFirst _ _

/-- C4: the modelled removal cascade deletes in reverse dependency
order: the unlink phase runs first and issues no SQL, then the trace
grows by exactly the dependent deletes (owner = foreign), then the
marked entries themselves by primary key with LIMIT 1 (at most one row
each), then the dependency deletes (owner = source); concretely, on the
marked "m" entry the dependent row of "d" is deleted first, then the "m"
row by id with LIMIT 1, then the referenced "o" row. -/
theorem C4_removal_cascade (n : Nat) (env : Env) (w : World) (t : Nat)
    (idn : String) (w' : World)
    (hidn : tableIdName env t = some idn)
    (h : commitRemove n env w t = .ok w') :
    (∃ w1, unlinkAll n env w (markedOf w.reg t) = .ok w1 ∧
       w1.db = w.db ∧ w1.trace = w.trace ∧
       w'.trace = w.trace ++
         (relTargets env w.reg t .foreign).map
           (fun tc => Stmt.deleteS tc.1 tc.2.1 (.v (some tc.2.2)) false) ++
         (selfIds w.reg t).map
           (fun k => Stmt.deleteS t idn (.v (some k)) true) ++
         (relTargets env w.reg t .source).map
           (fun tc => Stmt.deleteS tc.1 tc.2.1 (.v (some tc.2.2)) false)) ∧
    (∀ (db : DB) (t2 : Nat) (c : String) (x : CVal),
       (dbTable db t2).rows.length ≤
         (dbTable (dbDelete db t2 c x true) t2).rows.length + 1) ∧
    (commitRemove 10 envRem wRem 0).map (fun wf => (wf.trace, wf.db)) =
      .ok ([.deleteS 1 "m_id" (.v (some "1")) false,
            .deleteS 0 "id" (.v (some "1")) true,
            .deleteS 2 "id" (.v (some "9")) false],
           [(0, ⟨[], 2⟩), (1, ⟨[], 5⟩), (2, ⟨[], 10⟩)]) := by
  refine ⟨?_, fun db t2 c x => dbDelete_limitOne_length db t2 c x, rfl⟩
  unfold commitRemove at h
  simp only [hidn] at h
  cases hu : unlinkAll n env w (markedOf w.reg t) with
  | error er =>
    simp only [hu] at h
    exact Except.noConfusion h
  | ok w1 =>
    simp only [hu] at h
    injection h with h
    subst h
    obtain ⟨hdb, htr, _⟩ := unlinkAll_pure (markedOf w.reg t) n env w w1 hu
    refine ⟨w1, rfl, hdb, htr, ?_⟩
    rw [trace_foldl_emitDelete3, trace_foldl_emitDelete1,
      trace_foldl_emitDelete3, htr]

theorem C4_removal_cascade_witness :
    (∃ w1, unlinkAll 10 envRem wRem (markedOf wRem.reg 0) = .ok w1 ∧
       w1.db = wRem.db ∧ w1.trace = wRem.trace ∧
       remFinal.trace = wRem.trace ++
         (relTargets envRem wRem.reg 0 .foreign).map
           (fun tc => Stmt.deleteS tc.1 tc.2.1 (.v (some tc.2.2)) false) ++
         (selfIds wRem.reg 0).map
           (fun k => Stmt.deleteS 0 "id" (.v (some k)) true) ++
         (relTargets envRem wRem.reg 0 .source).map
           (fun tc => Stmt.deleteS tc.1 tc.2.1 (.v (some tc.2.2)) false)) ∧
    (commitRemove 10 envRem wRem 0).map (fun wf => (wf.trace, wf.db)) =
      .ok ([.deleteS 1 "m_id" (.v (some "1")) false,
            .deleteS 0 "id" (.v (some "1")) true,
            .deleteS 2 "id" (.v (some "9")) false],
           [(0, ⟨[], 2⟩), (1, ⟨[], 5⟩), (2, ⟨[], 10⟩)]) :=
  ⟨(C4_removal_cascade 10 envRem wRem 0 "id" remFinal rfl rfl).1,
   (C4_removal_cascade 10 envRem wRem 0 "id" remFinal rfl rfl).2.2⟩

end Perdata
